import Mathlib

set_option linter.unusedVariables false

/-!
Verification of the fish-cli expense-report tool (src/fish.py).

The Python source is shallowly embedded: strings are Lean strings
manipulated through their underlying character lists, money amounts are
integer cents rendered to and parsed from two-decimal strings, remote API
calls are an oracle argument consumed in call order, and the local vendor
database is an association list mirroring the JSON file.  Python dict
semantics (insertion order, last-write-wins) are modelled by an
association list with in-place overwrite on insert.
-/

namespace Fish

/-! ## Character primitives

Models of the character-level behaviour of Python str.strip, str.lower
and the digit handling inside int() / float() / format rendering.
Only ASCII behaviour is modelled; the source tables and file formats are
ASCII apart from literal text carried through unchanged. -/

/-- Whitespace characters stripped by the model of Python str.strip. -/
def isWsChar (c : Char) : Bool :=
  c = ' ' || c = '\t' || c = '\n' || c = '\r' || c = '\x0b' || c = '\x0c'

theorem char_toNat_ofNat (n : Nat) (h : n < 0xd800) : (Char.ofNat n).toNat = n := by
  unfold Char.ofNat
  rw [dif_pos (Or.inl h)]
  rfl

/-- Characters with codepoint 33 or more are not stripped whitespace. -/
theorem isWsChar_eq_false_of_ge (c : Char) (h : 33 ≤ c.toNat) : isWsChar c = false := by
  have hne : ∀ d : Char, d.toNat ≤ 32 → (c = d) = False := by
    intro d hd
    simp only [eq_iff_iff, iff_false]
    intro he
    rw [he] at h
    omega
  unfold isWsChar
  simp [hne ' ' (by decide), hne '\t' (by decide), hne '\n' (by decide),
    hne '\r' (by decide), hne '\x0b' (by decide), hne '\x0c' (by decide)]

/-- Model of Python str.lower on a single (ASCII) character: shift an
uppercase letter down into lowercase, leave everything else alone. -/
def lowerChar (c : Char) : Char :=
  if 65 ≤ c.toNat ∧ c.toNat ≤ 90 then Char.ofNat (c.toNat + 32) else c

theorem isWsChar_lowerChar (c : Char) : isWsChar (lowerChar c) = isWsChar c := by
  unfold lowerChar
  by_cases h : 65 ≤ c.toNat ∧ c.toNat ≤ 90
  · rw [if_pos h]
    rw [isWsChar_eq_false_of_ge _ (by rw [char_toNat_ofNat _ (by omega)]; omega)]
    rw [isWsChar_eq_false_of_ge _ (by omega)]
  · rw [if_neg h]

/-- Digit value of a character, as used by the models of int() and float(). -/
def charToDigit? (c : Char) : Option Nat :=
  if 48 ≤ c.toNat ∧ c.toNat ≤ 57 then some (c.toNat - 48) else none

/-- Decimal digit rendered as a character, as in Python number formatting. -/
def digitChar (d : Nat) : Char :=
  Char.ofNat (48 + d)

theorem digitChar_toNat (d : Nat) (h : d < 10) : (digitChar d).toNat = 48 + d :=
  char_toNat_ofNat _ (by omega)

theorem charToDigit?_digitChar (d : Nat) (h : d < 10) :
    charToDigit? (digitChar d) = some d := by
  unfold charToDigit?
  rw [digitChar_toNat d h, if_pos (by omega)]
  congr 1
  omega

theorem digitChar_ne_of_toNat (d : Nat) (h : d < 10) (c : Char)
    (hc : c.toNat ≠ 48 + d) : digitChar d ≠ c := by
  intro he
  apply hc
  rw [← he, digitChar_toNat d h]

theorem digitChar_props (d : Nat) (h : d < 10) :
    isWsChar (digitChar d) = false ∧ digitChar d ≠ '+' ∧ digitChar d ≠ '-' ∧
    digitChar d ≠ '.' ∧ digitChar d ≠ '$' ∧ digitChar d ≠ ',' ∧ digitChar d ≠ '/' := by
  refine ⟨isWsChar_eq_false_of_ge _ (by rw [digitChar_toNat d h]; omega),
    ?_, ?_, ?_, ?_, ?_, ?_⟩
  · exact digitChar_ne_of_toNat d h '+' (by show (43 : Nat) ≠ 48 + d; omega)
  · exact digitChar_ne_of_toNat d h '-' (by show (45 : Nat) ≠ 48 + d; omega)
  · exact digitChar_ne_of_toNat d h '.' (by show (46 : Nat) ≠ 48 + d; omega)
  · exact digitChar_ne_of_toNat d h '$' (by show (36 : Nat) ≠ 48 + d; omega)
  · exact digitChar_ne_of_toNat d h ',' (by show (44 : Nat) ≠ 48 + d; omega)
  · exact digitChar_ne_of_toNat d h '/' (by show (47 : Nat) ≠ 48 + d; omega)

/-! ## List-of-character string operations -/

/-- Model of Python str.strip (both ends). -/
def trimList (cs : List Char) : List Char :=
  ((cs.dropWhile isWsChar).reverse.dropWhile isWsChar).reverse

/-- Model of Python str.replace(ch, "") which removes all occurrences. -/
def removeChar (c : Char) (cs : List Char) : List Char :=
  cs.filter (fun x => x ≠ c)

/-- Model of Python str.split(sep) for a one-character separator. -/
def splitOnChar (c : Char) : List Char → List (List Char)
  | [] => [[]]
  | x :: xs =>
    if x = c then [] :: splitOnChar c xs
    else
      match splitOnChar c xs with
      | [] => [[x]]
      | h :: t => (x :: h) :: t

theorem dropWhile_eq_self_of_not {p : Char → Bool} (cs : List Char)
    (h : ∀ c ∈ cs, p c = false) : cs.dropWhile p = cs := by
  cases cs with
  | nil => rfl
  | cons x xs =>
    have hx : p x = false := h x (by simp)
    simp [List.dropWhile, hx]

theorem trimList_eq_self (cs : List Char) (h : ∀ c ∈ cs, isWsChar c = false) :
    trimList cs = cs := by
  unfold trimList
  rw [dropWhile_eq_self_of_not cs h]
  rw [dropWhile_eq_self_of_not cs.reverse (by intro c hc; exact h c (List.mem_reverse.mp hc))]
  exact List.reverse_reverse cs

theorem removeChar_eq_self (c : Char) (cs : List Char) (h : c ∉ cs) :
    removeChar c cs = cs := by
  unfold removeChar
  apply List.filter_eq_self.mpr
  intro a ha
  simp only [decide_eq_true_eq, ne_eq]
  intro hac
  exact h (hac ▸ ha)

theorem splitOnChar_ne_nil (c : Char) (cs : List Char) : splitOnChar c cs ≠ [] := by
  induction cs with
  | nil => simp [splitOnChar]
  | cons x xs ih =>
    by_cases hx : x = c
    · simp [splitOnChar, hx]
    · simp only [splitOnChar, hx, if_false]
      match h : splitOnChar c xs with
      | [] => exact absurd h ih
      | a :: t => simp

theorem splitOnChar_of_not_mem (c : Char) (cs : List Char) (h : c ∉ cs) :
    splitOnChar c cs = [cs] := by
  induction cs with
  | nil => rfl
  | cons x xs ih =>
    have hx : x ≠ c := fun hxc => h (hxc ▸ List.mem_cons_self x xs)
    have hxs : c ∉ xs := fun hm => h (List.mem_cons_of_mem x hm)
    simp only [splitOnChar, hx, if_false]
    rw [ih hxs]

theorem splitOnChar_append (c : Char) (a rest : List Char) (ha : c ∉ a) :
    splitOnChar c (a ++ c :: rest) = a :: splitOnChar c rest := by
  induction a with
  | nil => simp [splitOnChar]
  | cons x xs ih =>
    have hx : x ≠ c := fun hxc => ha (hxc ▸ List.mem_cons_self x xs)
    have hxs : c ∉ xs := fun hm => ha (List.mem_cons_of_mem x hm)
    simp only [List.cons_append, splitOnChar, hx, if_false, List.append_eq]
    rw [ih hxs]

/-! ## Decimal numerals

Rendering of natural numbers to decimal digit strings (as produced by
Python format specifiers) and parsing of digit strings (as accepted by
Python int() and the integral and fractional parts of float()). -/

/-- Value of a big-endian digit list, the way int() accumulates digits. -/
def digitsVal (ds : List Nat) : Nat :=
  ds.foldl (fun a d => a * 10 + d) 0

/-- Parse a character list as a big-endian digit list; none on any non-digit. -/
def parseDigits? : List Char → Option (List Nat)
  | [] => some []
  | c :: cs =>
    match charToDigit? c, parseDigits? cs with
    | some d, some ds => some (d :: ds)
    | _, _ => none

/-- Little-endian decimal digits of a natural number, fuel-based so that the
kernel can evaluate it. -/
def decDigitsRevFuel : Nat → Nat → List Nat
  | 0, _ => []
  | fuel + 1, n => if n < 10 then [n] else n % 10 :: decDigitsRevFuel fuel (n / 10)

/-- Character list of the decimal rendering of a natural number. -/
def natChars (n : Nat) : List Char :=
  ((decDigitsRevFuel (n + 1) n).reverse).map digitChar

/-- String rendering of a natural number, as Python str / format produce it. -/
def natToStr (n : Nat) : String :=
  ⟨natChars n⟩

theorem decDigitsRevFuel_lt_ten :
    ∀ fuel n, ∀ d ∈ decDigitsRevFuel fuel n, d < 10 := by
  intro fuel
  induction fuel with
  | zero => intro n d hd; simp [decDigitsRevFuel] at hd
  | succ fuel ih =>
    intro n d hd
    unfold decDigitsRevFuel at hd
    by_cases hn : n < 10
    · simp [hn] at hd; omega
    · simp only [hn, if_false, List.mem_cons] at hd
      rcases hd with h | h
      · omega
      · exact ih _ _ h

theorem decDigitsRevFuel_ne_nil (fuel n : Nat) (h : 0 < fuel) :
    decDigitsRevFuel fuel n ≠ [] := by
  match fuel, h with
  | fuel + 1, _ =>
    unfold decDigitsRevFuel
    by_cases hn : n < 10 <;> simp [hn]

theorem digitsVal_append_singleton (ds : List Nat) (d : Nat) :
    digitsVal (ds ++ [d]) = 10 * digitsVal ds + d := by
  simp [digitsVal, List.foldl_append]
  ring

theorem digitsVal_reverse_decDigits :
    ∀ fuel n, n < fuel → digitsVal (decDigitsRevFuel fuel n).reverse = n := by
  intro fuel
  induction fuel with
  | zero => intro n h; omega
  | succ fuel ih =>
    intro n h
    unfold decDigitsRevFuel
    by_cases hn : n < 10
    · simp [hn, digitsVal]
    · have h10 : 10 ≤ n := by omega
      have hdiv : n / 10 < fuel := by
        have : n / 10 < n := Nat.div_lt_self (by omega) (by omega)
        omega
      simp only [hn, if_false, List.reverse_cons]
      rw [digitsVal_append_singleton, ih _ hdiv]
      omega

theorem parseDigits?_map_digitChar (ds : List Nat) (h : ∀ d ∈ ds, d < 10) :
    parseDigits? (ds.map digitChar) = some ds := by
  induction ds with
  | nil => rfl
  | cons d ds ih =>
    have hd : d < 10 := h d (by simp)
    have hds : ∀ x ∈ ds, x < 10 := fun x hx => h x (by simp [hx])
    simp only [List.map_cons, parseDigits?, charToDigit?_digitChar d hd, ih hds]

theorem natChars_all_digits (n : Nat) :
    ∀ c ∈ natChars n, ∃ d, d < 10 ∧ c = digitChar d := by
  intro c hc
  unfold natChars at hc
  rcases List.mem_map.mp hc with ⟨d, hd, rfl⟩
  exact ⟨d, decDigitsRevFuel_lt_ten _ _ d (List.mem_reverse.mp hd), rfl⟩

theorem natChars_ne_nil (n : Nat) : natChars n ≠ [] := by
  unfold natChars
  intro h
  rw [List.map_eq_nil_iff, List.reverse_eq_nil_iff] at h
  exact decDigitsRevFuel_ne_nil (n + 1) n (by omega) h

theorem natChars_no_ws (n : Nat) : ∀ c ∈ natChars n, isWsChar c = false := by
  intro c hc
  rcases natChars_all_digits n c hc with ⟨d, hd, rfl⟩
  exact (digitChar_props d hd).1

/-- Parsing the digit rendering of a natural number recovers its value. -/
theorem parseDigits?_natChars (n : Nat) :
    parseDigits? (natChars n) = some (decDigitsRevFuel (n + 1) n).reverse := by
  unfold natChars
  exact parseDigits?_map_digitChar _
    (fun d hd => decDigitsRevFuel_lt_ten _ _ d (List.mem_reverse.mp hd))

theorem digitsVal_natChars (n : Nat) :
    (parseDigits? (natChars n)).map digitsVal = some n := by
  rw [parseDigits?_natChars]
  simp [digitsVal_reverse_decDigits (n + 1) n (by omega)]

/-! ## Python int()

Model of int(str): strip surrounding whitespace, optional sign, then a
nonempty run of decimal digits; anything else raises, modelled as none. -/

/-- Nonempty digit run parsed to its value. -/
def digitsNat? (cs : List Char) : Option Nat :=
  if cs.isEmpty then none else (parseDigits? cs).map digitsVal

/-- Model of Python int() on the characters of a string. -/
def pyInt? (cs : List Char) : Option Int :=
  match trimList cs with
  | '+' :: rest => (digitsNat? rest).map (fun n => (n : Int))
  | '-' :: rest => (digitsNat? rest).map (fun n => -(n : Int))
  | t => (digitsNat? t).map (fun n => (n : Int))

theorem digitsNat?_natChars (n : Nat) : digitsNat? (natChars n) = some n := by
  unfold digitsNat?
  rw [if_neg (by simpa [List.isEmpty_iff] using natChars_ne_nil n)]
  exact digitsVal_natChars n

theorem pyInt?_natChars (n : Nat) : pyInt? (natChars n) = some (n : Int) := by
  unfold pyInt?
  rw [trimList_eq_self _ (natChars_no_ws n)]
  have hplus : ∀ rest, natChars n ≠ '+' :: rest := by
    intro rest h
    have : '+' ∈ natChars n := by rw [h]; simp
    rcases natChars_all_digits n _ this with ⟨d, hd, hc⟩
    exact (digitChar_props d hd).2.1 hc.symm
  have hminus : ∀ rest, natChars n ≠ '-' :: rest := by
    intro rest h
    have : '-' ∈ natChars n := by rw [h]; simp
    rcases natChars_all_digits n _ this with ⟨d, hd, hc⟩
    exact (digitChar_props d hd).2.2.1 hc.symm
  split
  · next rest heq => exact absurd heq (hplus rest)
  · next rest heq => exact absurd heq (hminus rest)
  · next t _ _ =>
    rw [digitsNat?_natChars n]
    rfl

/-! ## Zero-padded rendering

Models of Python format specifiers 02d and 04d used by the date renderer
and the two-decimal money renderer. -/

/-- Zero-pad the decimal rendering of a natural number to a minimum width. -/
def padNat (w n : Nat) : String :=
  ⟨List.replicate (w - (natChars n).length) '0' ++ natChars n⟩

/-- Model of a zero-padded width format applied to an integer. -/
def intPad (w : Nat) (n : Int) : String :=
  if n < 0 then "-" ++ padNat (w - 1) (-n).toNat else padNat w n.toNat

/-! ## Money

Money amounts are modelled as integer cents.  parse_money in fish.py is
float(s) after stripping dollar signs and thousands separators, rendered
with the two-decimal format.  Here the float round trip is modelled as
exact decimal parsing with round-half-even to cents; this coincides with
the Python behaviour on all inputs with at most two fractional digits,
which is the modelled scope (binary-float artefacts on longer fractions
are outside it). -/

/-- Round n / d to the nearest integer, ties to even (d positive). -/
def roundHalfEven (n d : Nat) : Nat :=
  let q := n / d
  let r := n % d
  if 2 * r < d then q
  else if d < 2 * r then q + 1
  else if q % 2 = 0 then q else q + 1

/-- Cents denoted by an integral value and a list of fraction digits. -/
def centsOfParts (intVal : Nat) (fds : List Nat) : Nat :=
  let k := fds.length
  let scaled := intVal * 10 ^ k + digitsVal fds
  if k ≤ 2 then scaled * 10 ^ (2 - k) else roundHalfEven scaled (10 ^ (k - 2))

/-- Unsigned decimal literal (digits with at most one point) to cents. -/
def unsignedCents (cs : List Char) : Option Int :=
  match splitOnChar '.' cs with
  | [intPart] =>
    if intPart.isEmpty then none
    else (parseDigits? intPart).map (fun ds => ((digitsVal ds * 100 : Nat) : Int))
  | [intPart, fracPart] =>
    if intPart.isEmpty && fracPart.isEmpty then none
    else
      match parseDigits? intPart, parseDigits? fracPart with
      | some ids, some fds => some ((centsOfParts (digitsVal ids) fds : Nat) : Int)
      | _, _ => none
  | _ => none

/-- Model of float(s) followed by two-decimal quantisation, in cents. -/
def pyFloatCents (cs : List Char) : Option Int :=
  match trimList cs with
  | '+' :: rest => unsignedCents rest
  | '-' :: rest => (unsignedCents rest).map (fun n => -n)
  | t => unsignedCents t

/-- Model of parse_money in fish.py: strip, drop all dollar signs and
commas, empty means zero, otherwise the float value quantised to cents. -/
def parse_money (s : String) : Option Int :=
  if (removeChar ',' (removeChar '$' (trimList s.data))).isEmpty then some 0
  else pyFloatCents (removeChar ',' (removeChar '$' (trimList s.data)))

/-- Character list of the two-decimal rendering of nonnegative cents. -/
def formatCentsNat (n : Nat) : List Char :=
  natChars (n / 100) ++ '.' :: (padNat 2 (n % 100)).data

/-- Model of the Python format expression rendering cents with exactly two
decimal digits, as used for every money string fish.py emits. -/
def formatCents (c : Int) : String :=
  if c < 0 then ⟨'-' :: formatCentsNat (-c).toNat⟩ else ⟨formatCentsNat c.toNat⟩

/-- Digits of the two-digit zero-padded rendering of r below 100. -/
def padDigits (r : Nat) : List Nat :=
  if r < 10 then [0, r] else [r / 10, r % 10]

theorem decDigitsRevFuel_succ (f n : Nat) :
    decDigitsRevFuel (f + 1) n =
      if n < 10 then [n] else n % 10 :: decDigitsRevFuel f (n / 10) := rfl

theorem natChars_of_lt_ten (n : Nat) (h : n < 10) : natChars n = [digitChar n] := by
  unfold natChars
  rw [decDigitsRevFuel_succ, if_pos h]
  rfl

theorem natChars_of_lt_hundred (n : Nat) (h1 : 10 ≤ n) (h2 : n < 100) :
    natChars n = [digitChar (n / 10), digitChar (n % 10)] := by
  obtain ⟨f, hf⟩ : ∃ f, n = f + 1 := ⟨n - 1, by omega⟩
  unfold natChars
  rw [decDigitsRevFuel_succ, if_neg (by omega), hf,
    decDigitsRevFuel_succ, if_pos (by omega : (f + 1) / 10 < 10)]
  simp [hf]

theorem padNat_two_eq (r : Nat) (h : r < 100) :
    (padNat 2 r).data = (padDigits r).map digitChar := by
  unfold padNat padDigits
  by_cases hr : r < 10
  · rw [natChars_of_lt_ten r hr, if_pos hr]
    rfl
  · rw [natChars_of_lt_hundred r (by omega) h, if_neg hr]
    rfl

theorem padDigits_lt_ten (r : Nat) (h : r < 100) : ∀ d ∈ padDigits r, d < 10 := by
  intro d hd
  unfold padDigits at hd
  by_cases hr : r < 10 <;> simp [hr] at hd <;> omega

theorem padDigits_val (r : Nat) (h : r < 100) : digitsVal (padDigits r) = r := by
  unfold padDigits
  by_cases hr : r < 10
  · simp [hr, digitsVal]
  · simp [hr, digitsVal]
    omega

theorem padDigits_length (r : Nat) : (padDigits r).length = 2 := by
  unfold padDigits
  by_cases hr : r < 10 <;> simp [hr]

theorem formatCentsNat_no_ws (n : Nat) :
    ∀ c ∈ formatCentsNat n, isWsChar c = false := by
  intro c hc
  unfold formatCentsNat at hc
  rw [List.mem_append, List.mem_cons] at hc
  rcases hc with h | h | h
  · exact natChars_no_ws _ c h
  · subst h; rfl
  · rw [padNat_two_eq _ (Nat.mod_lt n (by omega))] at h
    rcases List.mem_map.mp h with ⟨d, hd, rfl⟩
    exact (digitChar_props d (padDigits_lt_ten _ (Nat.mod_lt n (by omega)) d hd)).1

theorem formatCentsNat_all_digit_or_dot (n : Nat) :
    ∀ c ∈ formatCentsNat n, c = '.' ∨ ∃ d, d < 10 ∧ c = digitChar d := by
  intro c hc
  unfold formatCentsNat at hc
  rw [List.mem_append, List.mem_cons] at hc
  rcases hc with h | h | h
  · exact Or.inr (natChars_all_digits _ _ h)
  · exact Or.inl h
  · right
    rw [padNat_two_eq _ (Nat.mod_lt n (by omega))] at h
    rcases List.mem_map.mp h with ⟨d, hd, hcc⟩
    exact ⟨d, padDigits_lt_ten _ (Nat.mod_lt n (by omega)) d hd, hcc.symm⟩

theorem formatCentsNat_no_dollar_comma (n : Nat) :
    '$' ∉ formatCentsNat n ∧ ',' ∉ formatCentsNat n := by
  constructor
  · intro hc
    rcases formatCentsNat_all_digit_or_dot n _ hc with h | ⟨d, hd, hcc⟩
    · exact absurd h (by decide)
    · exact (digitChar_props d hd).2.2.2.2.1 hcc.symm
  · intro hc
    rcases formatCentsNat_all_digit_or_dot n _ hc with h | ⟨d, hd, hcc⟩
    · exact absurd h (by decide)
    · exact (digitChar_props d hd).2.2.2.2.2.1 hcc.symm

theorem centsOfParts_padDigits (intVal r : Nat) (h : r < 100) :
    centsOfParts intVal (padDigits r) = intVal * 100 + r := by
  unfold centsOfParts
  rw [padDigits_length, padDigits_val _ h]
  norm_num

theorem unsignedCents_formatCentsNat (n : Nat) :
    unsignedCents (formatCentsNat n) = some (n : Int) := by
  have hr : n % 100 < 100 := Nat.mod_lt n (by omega)
  have hdotInt : '.' ∉ natChars (n / 100) := by
    intro h
    rcases natChars_all_digits _ _ h with ⟨d, hd, hc⟩
    exact (digitChar_props d hd).2.2.2.1 hc.symm
  have hdotFrac : '.' ∉ (padNat 2 (n % 100)).data := by
    rw [padNat_two_eq _ hr]
    intro h
    rcases List.mem_map.mp h with ⟨d, hd, hc⟩
    exact (digitChar_props d (padDigits_lt_ten _ hr d hd)).2.2.2.1 hc
  have hne : (natChars (n / 100)).isEmpty = false := by
    simpa [List.isEmpty_iff] using natChars_ne_nil (n / 100)
  unfold unsignedCents formatCentsNat
  rw [splitOnChar_append '.' _ _ hdotInt, splitOnChar_of_not_mem '.' _ hdotFrac]
  show (if ((natChars (n / 100)).isEmpty && ((padNat 2 (n % 100)).data).isEmpty) = true
      then none
      else
        match parseDigits? (natChars (n / 100)), parseDigits? ((padNat 2 (n % 100)).data) with
        | some ids, some fds => some ((centsOfParts (digitsVal ids) fds : Nat) : Int)
        | _, _ => none) = some (n : Int)
  rw [if_neg (by simp [hne])]
  rw [parseDigits?_natChars, padNat_two_eq _ hr,
    parseDigits?_map_digitChar _ (padDigits_lt_ten _ hr)]
  show some ((centsOfParts
      (digitsVal (decDigitsRevFuel (n / 100 + 1) (n / 100)).reverse)
      (padDigits (n % 100)) : Nat) : Int) = some (n : Int)
  rw [digitsVal_reverse_decDigits (n / 100 + 1) (n / 100) (by omega),
    centsOfParts_padDigits _ _ hr]
  congr 1
  omega

theorem pyFloatCents_formatCentsNat (n : Nat) :
    pyFloatCents (formatCentsNat n) = some (n : Int) := by
  unfold pyFloatCents
  rw [trimList_eq_self _ (formatCentsNat_no_ws n)]
  obtain ⟨c, t, hct⟩ : ∃ c t, natChars (n / 100) = c :: t := by
    match h : natChars (n / 100) with
    | [] => exact absurd h (natChars_ne_nil _)
    | c :: t => exact ⟨c, t, rfl⟩
  have hcd : ∃ d, d < 10 ∧ c = digitChar d :=
    natChars_all_digits (n / 100) c (by rw [hct]; simp)
  have hhead : formatCentsNat n = c :: (t ++ '.' :: (padNat 2 (n % 100)).data) := by
    unfold formatCentsNat
    rw [hct]
    rfl
  rcases hcd with ⟨d, hd, rfl⟩
  have hplus : ∀ rest, formatCentsNat n ≠ '+' :: rest := by
    intro rest h
    rw [hhead] at h
    exact (digitChar_props d hd).2.1 (List.cons.inj h).1
  have hminus : ∀ rest, formatCentsNat n ≠ '-' :: rest := by
    intro rest h
    rw [hhead] at h
    exact (digitChar_props d hd).2.2.1 (List.cons.inj h).1
  split
  · next rest heq => exact absurd heq (hplus rest)
  · next rest heq => exact absurd heq (hminus rest)
  · next _ _ _ =>
    rw [unsignedCents_formatCentsNat n]

/-- Re-parsing a rendered two-decimal money string recovers its cents,
exactly as float(rendered) does in fish.py when totalling debits. -/
theorem parse_money_formatCents (c : Int) : parse_money (formatCents c) = some c := by
  unfold parse_money formatCents
  by_cases hc : c < 0
  · simp only [hc, if_true]
    have hn : ∀ ch ∈ '-' :: formatCentsNat (-c).toNat, isWsChar ch = false := by
      intro ch hch
      rcases List.mem_cons.mp hch with h | h
      · subst h; rfl
      · exact formatCentsNat_no_ws _ ch h
    rw [trimList_eq_self _ hn]
    have hdc := formatCentsNat_no_dollar_comma (-c).toNat
    rw [removeChar_eq_self '$' _ (by
      intro h
      rcases List.mem_cons.mp h with h | h
      · exact absurd h (by decide)
      · exact hdc.1 h)]
    rw [removeChar_eq_self ',' _ (by
      intro h
      rcases List.mem_cons.mp h with h | h
      · exact absurd h (by decide)
      · exact hdc.2 h)]
    rw [if_neg (by simp)]
    unfold pyFloatCents
    rw [trimList_eq_self _ hn]
    show (unsignedCents (formatCentsNat (-c).toNat)).map (fun n => -n) = some c
    rw [unsignedCents_formatCentsNat]
    simp
    omega
  · simp only [hc, if_false]
    rw [trimList_eq_self _ (formatCentsNat_no_ws c.toNat)]
    have hdc := formatCentsNat_no_dollar_comma c.toNat
    rw [removeChar_eq_self '$' _ hdc.1, removeChar_eq_self ',' _ hdc.2]
    rw [if_neg (by simpa [List.isEmpty_iff] using
      (by
        unfold formatCentsNat
        intro h
        exact natChars_ne_nil _ (List.append_eq_nil.mp h).1 : formatCentsNat c.toNat ≠ []))]
    rw [pyFloatCents_formatCentsNat]
    simp
    omega

/-! ## Python dicts as association lists

Python dict lookup, membership and item assignment are modelled by an
association list with in-place overwrite, which preserves insertion order
exactly as CPython dicts do. -/

/-- Dict lookup. -/
def alist_lookup {α : Type} : List (String × α) → String → Option α
  | [], _ => none
  | (k', v) :: t, k => if k' = k then some v else alist_lookup t k

/-- Dict item assignment: overwrite in place, else append. -/
def alist_insert {α : Type} (k : String) (v : α) : List (String × α) → List (String × α)
  | [] => [(k, v)]
  | (k', v') :: t => if k' = k then (k, v) :: t else (k', v') :: alist_insert k v t

/-- Dict membership. -/
def alist_contains {α : Type} (l : List (String × α)) (k : String) : Bool :=
  (alist_lookup l k).isSome

theorem alist_lookup_insert_self {α : Type} (k : String) (v : α) (l : List (String × α)) :
    alist_lookup (alist_insert k v l) k = some v := by
  induction l with
  | nil => simp [alist_insert, alist_lookup]
  | cons kv t ih =>
    obtain ⟨k', v'⟩ := kv
    by_cases hk : k' = k
    · simp [alist_insert, hk, alist_lookup]
    · simp [alist_insert, hk, alist_lookup, ih]

theorem alist_lookup_insert_other {α : Type} (k j : String) (v : α) (l : List (String × α))
    (h : k ≠ j) : alist_lookup (alist_insert k v l) j = alist_lookup l j := by
  induction l with
  | nil => simp [alist_insert, alist_lookup, h]
  | cons kv t ih =>
    obtain ⟨k', v'⟩ := kv
    by_cases hk : k' = k
    · subst hk
      simp [alist_insert, alist_lookup, h]
    · simp [alist_insert, hk, alist_lookup, ih]

theorem alist_contains_insert {α : Type} (k j : String) (v : α) (l : List (String × α)) :
    alist_contains l j = true → alist_contains (alist_insert k v l) j = true := by
  intro h
  by_cases hk : k = j
  · subst hk
    simp [alist_contains, alist_lookup_insert_self]
  · rw [alist_contains, alist_lookup_insert_other k j v l hk]
    exact h

theorem alist_contains_insert_self {α : Type} (k : String) (v : α) (l : List (String × α)) :
    alist_contains (alist_insert k v l) k = true := by
  simp [alist_contains, alist_lookup_insert_self]

/-! ## String-level wrappers -/

/-- Model of Python str.lower. -/
def lowerStr (s : String) : String :=
  ⟨s.data.map lowerChar⟩

/-- Model of Python str.strip(). -/
def trimStr (s : String) : String :=
  ⟨trimList s.data⟩

/-- Model of Python s.startswith(pre). -/
def isPrefixList : List Char → List Char → Bool
  | [], _ => true
  | _ :: _, [] => false
  | a :: as, b :: bs => a = b && isPrefixList as bs

theorem dropWhile_lowerList (cs : List Char) :
    (cs.map lowerChar).dropWhile isWsChar = (cs.dropWhile isWsChar).map lowerChar := by
  induction cs with
  | nil => rfl
  | cons x xs ih =>
    simp only [List.map_cons, List.dropWhile]
    rw [isWsChar_lowerChar]
    by_cases hx : isWsChar x
    · simp [hx, ih]
    · simp [hx]

theorem trimList_lowerList (cs : List Char) :
    trimList (cs.map lowerChar) = (trimList cs).map lowerChar := by
  unfold trimList
  rw [dropWhile_lowerList, ← List.map_reverse, dropWhile_lowerList, ← List.map_reverse]

/-- Python desc.lower().strip() equals desc.strip().lower(). -/
theorem trimStr_lowerStr (s : String) : trimStr (lowerStr s) = lowerStr (trimStr s) := by
  unfold trimStr lowerStr
  simp only
  rw [trimList_lowerList]

/-! ## Static tables from fish.py -/

/-- Account ID shorthand map (ACCT in fish.py). -/
def ACCT : List (String × Int) :=
  [("checking", 1), ("savings", 2), ("petty_cash", 3), ("schwab", 103),
   ("accounts_receivable", 4), ("accounts_payable", 12), ("reimb_payable", 13),
   ("utilities", 44), ("office_supplies", 47), ("software_tech", 48),
   ("postage_shipping", 49), ("telephone_internet", 51),
   ("travel_airfare", 52), ("travel_lodging", 53), ("travel_meals", 54),
   ("travel_ground", 55), ("conference_reg", 56), ("legal_fees", 58),
   ("program_supplies", 62), ("marketing", 69), ("bank_fees", 72),
   ("misc_expense", 74)]

/-- ACCT dict indexing; every key used by the code is present. -/
def acctId (k : String) : Int :=
  (alist_lookup ACCT k).getD 0

/-- Value of a description rule: account id, optional expense subcategory
id, functional class (the tuples stored in DESCRIPTION_MAP). -/
abbrev DescVal := Int × Option Int × String

/-- Description keyword table (DESCRIPTION_MAP in fish.py), in declaration
order as CPython dicts preserve it. -/
def DESCRIPTION_MAP : List (String × DescVal) :=
  [("phone stipend",        (acctId "telephone_internet", some 14, "management_general")),
   ("home office",          (acctId "office_supplies",    some 10, "management_general")),
   ("utilities",            (acctId "utilities",          some 7,  "management_general")),
   ("internet",             (acctId "telephone_internet", some 14, "management_general")),
   ("llm coding",           (acctId "software_tech",      some 11, "program")),
   ("investment channel",   (acctId "misc_expense",       none,    "management_general")),
   ("llm",                  (acctId "software_tech",      some 11, "program")),
   ("monthly subscription", (acctId "software_tech",      some 11, "program")),
   ("fundraising",          (acctId "software_tech",      some 11, "program")),
   ("training",             (acctId "conference_reg",     some 19, "program")),
   ("domain renew",         (acctId "marketing",          some 28, "program")),
   ("pobox",                (acctId "postage_shipping",   some 12, "management_general"))]

/-- Canonical vendor names with their raw TSV aliases (VENDOR_ALIASES in
fish.py), in declaration order. -/
def VENDOR_ALIASES : List (String × List String) :=
  [("Ace Hardware", ["Ace Hardware"]),
   ("Airbnb", ["AirBnb"]),
   ("Amazon", ["Amazon"]),
   ("Anderson Law", ["Anderson"]),
   ("ARCO", ["Arco?"]),
   ("Ashland Mobile", ["ashland mobile"]),
   ("Best Buy", ["Best Buy"]),
   ("Anthropic (Claude)", ["Claude", "claud"]),
   ("DigitalOcean", ["Digital Ocean"]),
   ("Discord / Mitch Ray", ["Discord Mitch Ray", "mitchray TA"]),
   ("Enterprise Rent-A-Car", ["Enterprise Rentacar"]),
   ("Eugene Chevron", ["Eugene Chevron"]),
   ("EventHelper", ["EventHelper"]),
   ("Meta (Facebook)", ["Facebook Vendor"]),
   ("Fiverr", ["Fiverr"]),
   ("GoDaddy", ["Godaddy"]),
   ("Goodstack", ["goodstack"]),
   ("Harbor Freight", ["Harbor Freight"]),
   ("Harland Clarke", ["Harlond Clarke"]),
   ("ITU Online Training", ["ITU", "ITU Training", "itu online"]),
   ("Jess Langpap", ["Jess Langpap"]),
   ("JetBrains", ["JetBrains"]),
   ("Mail Stop", ["Mail Stop", "mailstop"]),
   ("Matt Campbell", ["Matt Campbell", "Matt Mileage OR"]),
   ("Medford Airport", ["Medford Airport"]),
   ("Mt. Ashland Foundation", ["Mt Ashland Foundation"]),
   ("Oregon Secretary of State", ["OR Secretary of State", "Oregon SOS"]),
   ("OpenAI", ["OpenAI", "Chatgpt", "chatgpt"]),
   ("Pilot Flying J", ["Pilot"]),
   ("Replit", ["Replit", "replit"]),
   ("SmallPDF", ["SmalPDF"]),
   ("Stripe", ["stripe"]),
   ("TradingView", ["Trading View"]),
   ("Verizon", ["verizon"]),
   ("Walmart", ["Walmart"]),
   ("Wells Fargo", ["Wells Fargo"]),
   ("Zach Pistole", ["Zach Pistole"])]

/-! ## Description classification (map_description in fish.py) -/

/-- Model of map_description: lower and strip the description, try an
exact dict hit first, then the first declared key that is a prefix of the
lowered description. -/
def map_description (desc : String) : Option DescVal :=
  match alist_lookup DESCRIPTION_MAP (trimStr (lowerStr desc)) with
  | some v => some v
  | none =>
    (DESCRIPTION_MAP.find?
      (fun kv => isPrefixList kv.1.data (trimStr (lowerStr desc)).data)).map (·.2)

/-- The classification policy as the specification words it: first an
exact case-insensitive match of the full trimmed description against a
rule keyphrase, otherwise the first rule in table declaration order whose
keyphrase is a case-insensitive prefix of the trimmed description. -/
def classify_spec (desc : String) : Option DescVal :=
  match DESCRIPTION_MAP.find? (fun kv => lowerStr (trimStr desc) == lowerStr kv.1) with
  | some kv => some kv.2
  | none =>
    (DESCRIPTION_MAP.find?
      (fun kv => isPrefixList (lowerStr kv.1).data (lowerStr (trimStr desc)).data)).map (·.2)

theorem alist_lookup_eq_find? {α : Type} (l : List (String × α)) (k : String) :
    alist_lookup l k = (l.find? (fun kv => kv.1 == k)).map (·.2) := by
  induction l with
  | nil => rfl
  | cons kv t ih =>
    obtain ⟨k', v⟩ := kv
    by_cases hk : k' = k
    · have hbeq : (k' == k) = true := by simp [hk]
      simp [alist_lookup, hk, List.find?, hbeq]
    · have hbeq : (k' == k) = false := beq_eq_false_iff_ne.mpr hk
      simp [alist_lookup, hk, List.find?, hbeq, ih]

theorem find?_congr_on {α : Type} (l : List α) (p q : α → Bool)
    (h : ∀ x ∈ l, p x = q x) : l.find? p = l.find? q := by
  induction l with
  | nil => rfl
  | cons x t ih =>
    have hx : p x = q x := h x (by simp)
    simp only [List.find?, hx]
    by_cases hq : q x = true
    · simp [hq]
    · simp only [Bool.not_eq_true] at hq
      simp [hq]
      exact ih (fun y hy => h y (by simp [hy]))

/-- Every keyphrase in the description table is already lowercase. -/
theorem DESCRIPTION_MAP_keys_lower :
    ∀ kv ∈ DESCRIPTION_MAP, lowerStr kv.1 = kv.1 := by
  decide

/-- Claim C5.  The classifier returns the rule whose keyphrase equals the
trimmed description case-insensitively when one exists, and only
otherwise the first rule in declaration order whose keyphrase is a
case-insensitive prefix of the trimmed description: map_description
coincides with that two-phase policy on every description string. -/
theorem claim_C5 (desc : String) : map_description desc = classify_spec desc := by
  unfold map_description classify_spec
  have hL : lowerStr (trimStr desc) = trimStr (lowerStr desc) := (trimStr_lowerStr desc).symm
  have hexact :
      DESCRIPTION_MAP.find? (fun kv => lowerStr (trimStr desc) == lowerStr kv.1) =
      DESCRIPTION_MAP.find? (fun kv => kv.1 == trimStr (lowerStr desc)) := by
    apply find?_congr_on
    intro kv hkv
    rw [DESCRIPTION_MAP_keys_lower kv hkv, hL]
    by_cases h : trimStr (lowerStr desc) = kv.1
    · simp [h]
    · have h1 : (trimStr (lowerStr desc) == kv.1) = false := beq_eq_false_iff_ne.mpr h
      have h2 : (kv.1 == trimStr (lowerStr desc)) = false := beq_eq_false_iff_ne.mpr (Ne.symm h)
      rw [h1, h2]
  have hpre :
      (DESCRIPTION_MAP.find?
        (fun kv => isPrefixList (lowerStr kv.1).data (lowerStr (trimStr desc)).data)) =
      (DESCRIPTION_MAP.find?
        (fun kv => isPrefixList kv.1.data (trimStr (lowerStr desc)).data)) := by
    apply find?_congr_on
    intro kv hkv
    rw [DESCRIPTION_MAP_keys_lower kv hkv, hL]
  rw [hexact, hpre, alist_lookup_eq_find?]
  cases DESCRIPTION_MAP.find? (fun kv => kv.1 == trimStr (lowerStr desc)) <;> rfl

/-- Witness for claim C5 at a concrete description string. -/
theorem claim_C5_witness :
    map_description "LLM coding" = classify_spec "LLM coding" :=
  claim_C5 "LLM coding"


/-! ## Date parsing (parse_date_mdy in fish.py) -/

/-- Core of parse_date_mdy applied to the fields of s.strip().split("/"):
exactly three int()-parseable fields succeed, a two-digit year is shifted
into the 2000s, and the result is rendered with the 04d-02d-02d format. -/
def parse_date_core (fields : List (List Char)) : Option String :=
  match fields with
  | [a, b, c] =>
    match pyInt? a, pyInt? b, pyInt? c with
    | some m, some d, some y =>
      some (intPad 4 (if y < 100 then y + 2000 else y) ++ "-" ++
        intPad 2 m ++ "-" ++ intPad 2 d)
    | _, _, _ => none
  | _ => none

/-- Model of parse_date_mdy: strip, split on slashes, parse the fields. -/
def parse_date_mdy (s : String) : Option String :=
  parse_date_core (splitOnChar '/' (trimList s.data))

/-- Shape test: the stripped input splits on "/" into exactly three fields
that int() accepts.  parse_date_mdy raises (returns none) exactly when
this fails. -/
def date_fields_ok (fields : List (List Char)) : Bool :=
  match fields with
  | [a, b, c] => (pyInt? a).isSome && (pyInt? b).isSome && (pyInt? c).isSome
  | _ => false

theorem parse_date_core_none (fields : List (List Char))
    (h : date_fields_ok fields = false) : parse_date_core fields = none := by
  match fields with
  | [] => rfl
  | [a] => rfl
  | [a, b] => rfl
  | a :: b :: c :: e :: t => rfl
  | [a, b, c] =>
    simp only [date_fields_ok] at h
    cases ha : pyInt? a <;> cases hb : pyInt? b <;> cases hc : pyInt? c <;>
      simp [parse_date_core, ha, hb, hc] at h ⊢

theorem natChars_no_slash (n : Nat) : '/' ∉ natChars n := by
  intro h
  rcases natChars_all_digits n _ h with ⟨d, hd, hc⟩
  exact (digitChar_props d hd).2.2.2.2.2.2 hc.symm

/-- Claim C9.  Dates of the form M/D/YY with numeric fields and a year
below 100 parse to the canonical zero-padded rendering of
(2000+YY)-MM-DD, and any string whose stripped form does not split on "/"
into exactly three int()-parseable fields parses to none (a ParseError in
fish.py). -/
theorem claim_C9 :
    (∀ m d y : Nat, m < 100 → d < 100 → y < 100 →
      parse_date_mdy (natToStr m ++ "/" ++ natToStr d ++ "/" ++ natToStr y) =
        some (intPad 4 ((y : Int) + 2000) ++ "-" ++
          intPad 2 (m : Int) ++ "-" ++ intPad 2 (d : Int))) ∧
    (∀ s : String,
      date_fields_ok (splitOnChar '/' (trimList s.data)) = false →
      parse_date_mdy s = none) := by
  constructor
  · intro m d y hm hd hy
    unfold parse_date_mdy
    have happ : ∀ (s t : String), (s ++ t).data = s.data ++ t.data := fun s t => rfl
    have hdata : (natToStr m ++ "/" ++ natToStr d ++ "/" ++ natToStr y).data =
        natChars m ++ '/' :: (natChars d ++ '/' :: natChars y) := by
      rw [happ, happ, happ, happ]
      show (((natChars m ++ ['/']) ++ natChars d) ++ ['/']) ++ natChars y = _
      simp
    rw [hdata]
    have hws : ∀ c ∈ natChars m ++ '/' :: (natChars d ++ '/' :: natChars y),
        isWsChar c = false := by
      intro c hc
      rcases List.mem_append.mp hc with h | h
      · exact natChars_no_ws m c h
      · rcases List.mem_cons.mp h with h | h
        · subst h; rfl
        · rcases List.mem_append.mp h with h | h
          · exact natChars_no_ws d c h
          · rcases List.mem_cons.mp h with h | h
            · subst h; rfl
            · exact natChars_no_ws y c h
    rw [trimList_eq_self _ hws]
    rw [splitOnChar_append '/' _ _ (natChars_no_slash m),
      splitOnChar_append '/' _ _ (natChars_no_slash d),
      splitOnChar_of_not_mem '/' _ (natChars_no_slash y)]
    show (match pyInt? (natChars m), pyInt? (natChars d), pyInt? (natChars y) with
      | some m, some d, some y =>
        some (intPad 4 (if y < 100 then y + 2000 else y) ++ "-" ++
          intPad 2 m ++ "-" ++ intPad 2 d)
      | _, _, _ => none) = some (intPad 4 ((y : Int) + 2000) ++ "-" ++
        intPad 2 (m : Int) ++ "-" ++ intPad 2 (d : Int))
    rw [pyInt?_natChars m, pyInt?_natChars d, pyInt?_natChars y]
    show some (intPad 4 (if (y : Int) < 100 then (y : Int) + 2000 else (y : Int)) ++ "-" ++
        intPad 2 (m : Int) ++ "-" ++ intPad 2 (d : Int)) = _
    rw [if_pos (by exact_mod_cast hy)]
  · intro s h
    exact parse_date_core_none _ h

/-- Witness for claim C9 at concrete inputs: 1/5/26 parses to 2026-01-05
and a two-field string fails. -/
theorem claim_C9_witness :
    parse_date_mdy (natToStr 1 ++ "/" ++ natToStr 5 ++ "/" ++ natToStr 26) =
      some (intPad 4 ((26 : Int) + 2000) ++ "-" ++
        intPad 2 (1 : Int) ++ "-" ++ intPad 2 (5 : Int)) ∧
    parse_date_mdy "1/5" = none := by
  constructor
  · exact claim_C9.1 1 5 26 (by decide) (by decide) (by decide)
  · exact claim_C9.2 "1/5" (by decide)

/-! ## Local vendor database -/

/-- A stored vendor record: remote id plus stored display name. -/
structure VendorRec where
  id : Int
  name : String
deriving DecidableEq

/-- The local vendor database file: canonical name to record, plus the
alias index that is rebuilt from VENDOR_ALIASES on every load. -/
structure VendorDb where
  vendors : List (String × VendorRec)
  alias_map : List (String × String)
deriving DecidableEq

/-- Model of rebuild_alias_map: the alias index is rebuilt from
VENDOR_ALIASES, lowercasing each alias; later duplicates overwrite. -/
def rebuild_alias_map (db : VendorDb) : VendorDb :=
  { db with
    alias_map :=
      VENDOR_ALIASES.foldl
        (fun m ca => ca.2.foldl (fun m a => alist_insert (lowerStr a) ca.1 m) m) [] }

theorem rebuild_alias_map_vendors (db : VendorDb) :
    (rebuild_alias_map db).vendors = db.vendors := rfl

/-- Model of lookup_vendor_id: alias index to canonical name (a falsy
canonical behaves like a miss), then canonical name to stored record. -/
def lookup_vendor_id (raw_name : String) (db : VendorDb) : Option Int :=
  match alist_lookup db.alias_map (lowerStr raw_name) with
  | none => none
  | some canonical =>
    if canonical = "" then none
    else
      match alist_lookup db.vendors canonical with
      | some entry => some entry.id
      | none => none

/-- Outcome of the vendor-lookup command: the two distinct failure kinds
(no alias mapping versus mapped but not yet created remotely) and the
success case. -/
inductive LookupResult where
  | notMapped (raw : String)
  | notCreated (canonical : String)
  | found (canonical : String) (id : Int)
deriving DecidableEq

/-- Model of cmd_vendor_lookup: rebuild the alias index, resolve the raw
name to a canonical name or fail with the not-mapped message, then fetch
the stored record or fail with the not-created message. -/
def cmd_vendor_lookup (db0 : VendorDb) (raw : String) : LookupResult :=
  match alist_lookup (rebuild_alias_map db0).alias_map (lowerStr raw) with
  | none => LookupResult.notMapped raw
  | some canonical =>
    if canonical = "" then LookupResult.notMapped raw
    else
      match alist_lookup (rebuild_alias_map db0).vendors canonical with
      | none => LookupResult.notCreated canonical
      | some entry => LookupResult.found canonical entry.id

/-- Claim C6.  Vendor resolution distinguishes its two failure kinds: a
raw name with no alias entry fails as not-mapped, and a raw name whose
alias resolves to a canonical name with no stored remote id fails with
the distinct not-created outcome. -/
theorem claim_C6 (db : VendorDb) (raw : String) :
    (alist_lookup (rebuild_alias_map db).alias_map (lowerStr raw) = none →
      cmd_vendor_lookup db raw = LookupResult.notMapped raw) ∧
    (∀ canonical, canonical ≠ "" →
      alist_lookup (rebuild_alias_map db).alias_map (lowerStr raw) = some canonical →
      alist_lookup db.vendors canonical = none →
      cmd_vendor_lookup db raw = LookupResult.notCreated canonical) ∧
    (∀ r c, LookupResult.notMapped r ≠ LookupResult.notCreated c) := by
  refine ⟨?_, ?_, fun r c h => LookupResult.noConfusion h⟩
  · intro h
    unfold cmd_vendor_lookup
    rw [h]
  · intro canonical hne hsome hnone
    unfold cmd_vendor_lookup
    rw [hsome]
    show (if canonical = "" then LookupResult.notMapped raw
      else
        match alist_lookup (rebuild_alias_map db).vendors canonical with
        | none => LookupResult.notCreated canonical
        | some entry => LookupResult.found canonical entry.id) =
      LookupResult.notCreated canonical
    rw [if_neg hne, rebuild_alias_map_vendors, hnone]

/-- Witness for claim C6: with an empty local store, the alias-mapped raw
name from the spec scenario fails as not-created for its canonical name,
while an unknown raw name fails as not-mapped. -/
theorem claim_C6_witness :
    cmd_vendor_lookup ⟨[], []⟩ "mitchray TA" =
      LookupResult.notCreated "Discord / Mitch Ray" ∧
    cmd_vendor_lookup ⟨[], []⟩ "totally unknown vendor" =
      LookupResult.notMapped "totally unknown vendor" := by
  constructor
  · exact (claim_C6 ⟨[], []⟩ "mitchray TA").2.1 "Discord / Mitch Ray"
      (by decide) (by decide) rfl
  · exact (claim_C6 ⟨[], []⟩ "totally unknown vendor").1 (by decide)

/-! ## Expense report compilation (cmd_import_report in fish.py)

The loop body of cmd_import_report is modelled row by row: rowOutcome is
the per-row computation in source order (required-field check, date
parse, amount parse, description classification, vendor resolution) and
runRows is the accumulating loop.  A ValueError escaping parse_money is
not caught by the loop, which is modelled by the crash outcome aborting
the whole run. -/

/-- One data row of the expense report TSV (Date, Vendor, Description,
Expense Total columns). -/
structure Row where
  date : String
  vendor : String
  descr : String
  amount : String
deriving DecidableEq

/-- One line item of the transaction payload. The optional fields model
dict keys that are present or absent. -/
structure LineItem where
  accountId : Int
  debit : String
  credit : String
  description : String
  functionalClass : String
  vendorId : Option Int
  expenseSubcategoryId : Option Int
deriving DecidableEq

/-- A row-level error, tagged with its 1-based row number exactly as the
source interpolates the row number into the message. -/
inductive RowError where
  | missing (rowNum : Nat)
  | badDate (rowNum : Nat) (raw : String)
  | noMapping (rowNum : Nat) (descr : String)
  | vendorNotFound (rowNum : Nat) (vendor : String)
deriving DecidableEq

/-- The row number a row error is tagged with. -/
def RowError.rowNum : RowError → Nat
  | .missing i => i
  | .badDate i _ => i
  | .noMapping i _ => i
  | .vendorNotFound i _ => i

/-- Result of processing one row: an uncaught exception from parse_money,
an accumulated error raised before or after the date was parsed (the
latest-date tracker updates as soon as the date parses), or a line item. -/
inductive RowRes where
  | crash (amountRaw : String)
  | errNoDate (e : RowError)
  | errWithDate (e : RowError) (dateStr : String)
  | line (li : LineItem) (dateStr : String)
deriving DecidableEq

/-- The loop body of cmd_import_report for row number i, in source order:
strip the four fields, require date, description and amount nonempty,
parse the date (error accumulated), parse the amount (NOT guarded: a
failure is an uncaught ValueError, modelled as crash), classify the
description (error accumulated), resolve the vendor (falsy id is treated
as missing; error accumulated), then build the debit line. -/
def rowOutcome (db : VendorDb) (i : Nat) (row : Row) : RowRes :=
  if trimStr row.date = "" ∨ trimStr row.descr = "" ∨ trimStr row.amount = "" then
    RowRes.errNoDate (RowError.missing i)
  else
    match parse_date_mdy (trimStr row.date) with
    | none => RowRes.errNoDate (RowError.badDate i (trimStr row.date))
    | some date_str =>
      match parse_money (trimStr row.amount) with
      | none => RowRes.crash (trimStr row.amount)
      | some cents =>
        match map_description (trimStr row.descr) with
        | none => RowRes.errWithDate (RowError.noMapping i (trimStr row.descr)) date_str
        | some (acct_id, subcat_id, func_class) =>
          match lookup_vendor_id (trimStr row.vendor) db with
          | none => RowRes.errWithDate (RowError.vendorNotFound i (trimStr row.vendor)) date_str
          | some vid =>
            if vid = 0 then
              RowRes.errWithDate (RowError.vendorNotFound i (trimStr row.vendor)) date_str
            else
              RowRes.line
                { accountId := acct_id
                  debit := formatCents cents
                  credit := "0.00"
                  description :=
                    (alist_lookup db.alias_map (lowerStr (trimStr row.vendor))).getD
                      (trimStr row.vendor) ++ " — " ++ trimStr row.descr
                  functionalClass := func_class
                  vendorId := some vid
                  expenseSubcategoryId := subcat_id } date_str

/-- The error, if any, that a row contributes to the accumulated list. -/
def rowErrOf (db : VendorDb) (p : Nat × Row) : Option RowError :=
  match rowOutcome db p.1 p.2 with
  | RowRes.errNoDate e => some e
  | RowRes.errWithDate e _ => some e
  | _ => none

/-- The debit line, if any, that a row contributes. -/
def rowLineOf (db : VendorDb) (p : Nat × Row) : Option LineItem :=
  match rowOutcome db p.1 p.2 with
  | RowRes.line li _ => some li
  | _ => none

/-- Whether a row makes the loop crash on its amount. -/
def rowCrashes (db : VendorDb) (p : Nat × Row) : Bool :=
  match rowOutcome db p.1 p.2 with
  | RowRes.crash _ => true
  | _ => false

/-- Python string comparison: codepoint-lexicographic order on the
character lists. -/
def listStrLt : List Char → List Char → Bool
  | [], [] => false
  | [], _ :: _ => true
  | _ :: _, [] => false
  | a :: as, b :: bs =>
    if a.toNat < b.toNat then true
    else if b.toNat < a.toNat then false
    else listStrLt as bs

/-- Python s < t on strings. -/
def pyStrLt (s t : String) : Bool :=
  listStrLt s.data t.data

/-- The latest-date update of the loop: keep the lexicographically larger
canonical date string. -/
def updLatest (latest ds : String) : String :=
  if pyStrLt latest ds then ds else latest

/-- Loop state: debit lines, accumulated errors, latest date seen. -/
structure CompState where
  debit_lines : List LineItem
  errors : List RowError
  latest_date : String
deriving DecidableEq

/-- The accumulating loop of cmd_import_report over numbered rows. -/
def runRows (db : VendorDb) : CompState → List (Nat × Row) → Except String CompState
  | st, [] => Except.ok st
  | st, p :: t =>
    match rowOutcome db p.1 p.2 with
    | RowRes.crash a => Except.error a
    | RowRes.errNoDate e => runRows db { st with errors := st.errors ++ [e] } t
    | RowRes.errWithDate e ds =>
      runRows db { st with errors := st.errors ++ [e],
                           latest_date := updLatest st.latest_date ds } t
    | RowRes.line li ds =>
      runRows db { st with debit_lines := st.debit_lines ++ [li],
                           latest_date := updLatest st.latest_date ds } t

/-- Whole-report row processing, rows numbered from 1. -/
def processRows (db : VendorDb) (rows : List Row) : Except String CompState :=
  runRows db ⟨[], [], ""⟩ (rows.enumFrom 1)

/-- Sum of the money values of a list of strings, as the source computes
sum(float(s) for s in ...); none if any string fails to parse. -/
def sum_money : List String → Option Int
  | [] => some 0
  | s :: t =>
    match parse_money s, sum_money t with
    | some c, some r => some (c + r)
    | _, _ => none

/-- Sum of the debit fields of line items, in cents. -/
def sum_debit_cents (lines : List LineItem) : Option Int :=
  sum_money (lines.map (fun li => li.debit))

/-- Sum of the credit fields of line items, in cents. -/
def sum_credit_cents (lines : List LineItem) : Option Int :=
  sum_money (lines.map (fun li => li.credit))

/-- The synthetic balancing credit line posted to reimbursements payable. -/
def reimb_credit_line (total : Int) : LineItem :=
  { accountId := acctId "reimb_payable"
    debit := "0.00"
    credit := formatCents total
    description := "Reimbursement payable"
    functionalClass := "none"
    vendorId := none
    expenseSubcategoryId := none }

/-- The transaction payload cmd_import_report builds. -/
structure Txn where
  transactionType : String
  date : String
  description : String
  reimbursementStatus : String
  isPosted : Bool
  lineItems : List LineItem
deriving DecidableEq

/-- Compilation of an expense report: run the loop (crash propagates),
total the debit lines by re-parsing their rendered strings, and append
exactly one balancing credit line.  Returns the accumulated row errors
alongside the assembled transaction. -/
def compileReport (db : VendorDb) (rows : List Row) (descr : String) :
    Except String (List RowError × Txn) :=
  match processRows db rows with
  | Except.error a => Except.error a
  | Except.ok st =>
    match sum_debit_cents st.debit_lines with
    | none => Except.error "float"
    | some total =>
      Except.ok (st.errors,
        { transactionType := "expense"
          date := st.latest_date
          description := descr
          reimbursementStatus := "pending"
          isPosted := true
          lineItems := st.debit_lines ++ [reimb_credit_line total] })

/-- Observable outcome of the import-report command. -/
inductive ReportOutcome where
  | crashed (amountRaw : String)
  | abortedWithErrors (errors : List RowError)
  | previewed (errors : List RowError) (txn : Txn)
  | posted (txn : Txn)
deriving DecidableEq

/-- Model of cmd_import_report: rebuild the alias index, compile, abort
on errors unless dry-running, preview on dry run, else POST exactly one
transaction.  The second component counts remote API calls made. -/
def cmd_import_report (dryRun : Bool) (db0 : VendorDb) (rows : List Row) (descr : String) :
    ReportOutcome × Nat :=
  match compileReport (rebuild_alias_map db0) rows descr with
  | Except.error a => (ReportOutcome.crashed a, 0)
  | Except.ok (errors, txn) =>
    if errors ≠ [] ∧ dryRun = false then (ReportOutcome.abortedWithErrors errors, 0)
    else if dryRun then (ReportOutcome.previewed errors txn, 0)
    else (ReportOutcome.posted txn, 1)

/-! ## Structural lemmas about the report loop -/

theorem rowOutcome_errNoDate_num (db : VendorDb) (i : Nat) (row : Row) (e : RowError)
    (h : rowOutcome db i row = RowRes.errNoDate e) : e.rowNum = i := by
  unfold rowOutcome at h
  split at h
  · injection h with h1; subst h1; rfl
  · split at h
    · injection h with h1; subst h1; rfl
    · split at h
      · exact RowRes.noConfusion h
      · split at h
        · exact RowRes.noConfusion h
        · split at h
          · exact RowRes.noConfusion h
          · split at h
            · exact RowRes.noConfusion h
            · exact RowRes.noConfusion h

theorem rowOutcome_errWithDate_num (db : VendorDb) (i : Nat) (row : Row) (e : RowError)
    (ds : String) (h : rowOutcome db i row = RowRes.errWithDate e ds) : e.rowNum = i := by
  unfold rowOutcome at h
  split at h
  · exact RowRes.noConfusion h
  · split at h
    · exact RowRes.noConfusion h
    · split at h
      · exact RowRes.noConfusion h
      · split at h
        · injection h with h1 h2; subst h1; rfl
        · split at h
          · injection h with h1 h2; subst h1; rfl
          · split at h
            · injection h with h1 h2; subst h1; rfl
            · exact RowRes.noConfusion h

theorem rowOutcome_line_props (db : VendorDb) (i : Nat) (row : Row) (li : LineItem)
    (ds : String) (h : rowOutcome db i row = RowRes.line li ds) :
    li.credit = "0.00" ∧
    ∃ c, parse_money (trimStr row.amount) = some c ∧ li.debit = formatCents c := by
  unfold rowOutcome at h
  split at h
  · exact RowRes.noConfusion h
  · split at h
    · exact RowRes.noConfusion h
    · split at h
      · exact RowRes.noConfusion h
      · split at h
        · exact RowRes.noConfusion h
        · split at h
          · exact RowRes.noConfusion h
          · split at h
            · exact RowRes.noConfusion h
            · injection h with h1 h2
              subst h1
              exact ⟨rfl, _, by assumption, rfl⟩

theorem rowErrOf_rowNum (db : VendorDb) (p : Nat × Row) (e : RowError)
    (h : rowErrOf db p = some e) : e.rowNum = p.1 := by
  unfold rowErrOf at h
  cases hro : rowOutcome db p.1 p.2 with
  | crash a => rw [hro] at h; exact Option.noConfusion h
  | errNoDate e' =>
    rw [hro] at h
    injection h with h1
    subst h1
    exact rowOutcome_errNoDate_num db p.1 p.2 e' hro
  | errWithDate e' ds =>
    rw [hro] at h
    injection h with h1
    subst h1
    exact rowOutcome_errWithDate_num db p.1 p.2 e' ds hro
  | line li ds => rw [hro] at h; exact Option.noConfusion h

theorem rowLineOf_props (db : VendorDb) (p : Nat × Row) (li : LineItem)
    (h : rowLineOf db p = some li) :
    li.credit = "0.00" ∧
    ∃ c, parse_money (trimStr p.2.amount) = some c ∧ li.debit = formatCents c := by
  unfold rowLineOf at h
  cases hro : rowOutcome db p.1 p.2 with
  | crash a => rw [hro] at h; exact Option.noConfusion h
  | errNoDate e => rw [hro] at h; exact Option.noConfusion h
  | errWithDate e ds => rw [hro] at h; exact Option.noConfusion h
  | line li' ds =>
    rw [hro] at h
    injection h with h1
    subst h1
    exact rowOutcome_line_props db p.1 p.2 li' ds hro

/-- If no row crashes, the loop succeeds and returns exactly the lines
and errors contributed by the individual rows, in row order. -/
theorem runRows_ok_of_no_crash (db : VendorDb) (l : List (Nat × Row)) :
    ∀ st : CompState, (∀ p ∈ l, rowCrashes db p = false) →
    ∃ latest, runRows db st l =
      Except.ok ⟨st.debit_lines ++ l.filterMap (rowLineOf db),
                 st.errors ++ l.filterMap (rowErrOf db), latest⟩ := by
  induction l with
  | nil =>
    intro st h
    exact ⟨st.latest_date, by simp [runRows]⟩
  | cons p t ih =>
    intro st h
    have hp : rowCrashes db p = false := h p (by simp)
    have ht : ∀ q ∈ t, rowCrashes db q = false := fun q hq => h q (by simp [hq])
    cases hro : rowOutcome db p.1 p.2 with
    | crash a =>
      exact absurd hp (by simp [rowCrashes, hro])
    | errNoDate e =>
      obtain ⟨latest, hl⟩ := ih { st with errors := st.errors ++ [e] } ht
      refine ⟨latest, ?_⟩
      simp only [runRows, hro]
      rw [hl]
      simp [List.filterMap_cons, rowErrOf, rowLineOf, hro]
    | errWithDate e ds =>
      obtain ⟨latest, hl⟩ := ih
        { st with errors := st.errors ++ [e], latest_date := updLatest st.latest_date ds } ht
      refine ⟨latest, ?_⟩
      simp only [runRows, hro]
      rw [hl]
      simp [List.filterMap_cons, rowErrOf, rowLineOf, hro]
    | line li ds =>
      obtain ⟨latest, hl⟩ := ih
        { st with debit_lines := st.debit_lines ++ [li],
                  latest_date := updLatest st.latest_date ds } ht
      refine ⟨latest, ?_⟩
      simp only [runRows, hro]
      rw [hl]
      simp [List.filterMap_cons, rowErrOf, rowLineOf, hro]

/-- Every line produced by the loop comes from some processed row. -/
theorem runRows_lines_from (db : VendorDb) (l : List (Nat × Row)) :
    ∀ st st' : CompState, runRows db st l = Except.ok st' →
    ∀ li ∈ st'.debit_lines, li ∈ st.debit_lines ∨ ∃ p ∈ l, rowLineOf db p = some li := by
  induction l with
  | nil =>
    intro st st' h li hli
    injection h with h1
    subst h1
    exact Or.inl hli
  | cons p t ih =>
    intro st st' h li hli
    rw [runRows] at h
    cases hro : rowOutcome db p.1 p.2 with
    | crash a => rw [hro] at h; exact Except.noConfusion h
    | errNoDate e =>
      rw [hro] at h
      rcases ih _ _ h li hli with hin | ⟨q, hq, hqe⟩
      · exact Or.inl hin
      · exact Or.inr ⟨q, by simp [hq], hqe⟩
    | errWithDate e ds =>
      rw [hro] at h
      rcases ih _ _ h li hli with hin | ⟨q, hq, hqe⟩
      · exact Or.inl hin
      · exact Or.inr ⟨q, by simp [hq], hqe⟩
    | line li0 ds =>
      rw [hro] at h
      rcases ih _ _ h li hli with hin | ⟨q, hq, hqe⟩
      · rcases List.mem_append.mp hin with hin | hin
        · exact Or.inl hin
        · rw [List.mem_singleton] at hin
          subst hin
          exact Or.inr ⟨p, by simp, by simp [rowLineOf, hro]⟩
      · exact Or.inr ⟨q, by simp [hq], hqe⟩

theorem sum_money_append (a b : List String) (x y : Int)
    (ha : sum_money a = some x) (hb : sum_money b = some y) :
    sum_money (a ++ b) = some (x + y) := by
  induction a generalizing x with
  | nil =>
    injection ha with h1
    subst h1
    simpa using hb
  | cons s t ih =>
    rw [sum_money] at ha
    cases hs : parse_money s with
    | none => rw [hs] at ha; exact Option.noConfusion ha
    | some c =>
      rw [hs] at ha
      cases hst : sum_money t with
      | none => rw [hst] at ha; exact Option.noConfusion ha
      | some r =>
        rw [hst] at ha
        injection ha with h1
        subst h1
        rw [List.cons_append, sum_money, hs, ih r hst]
        simp
        ring

theorem sum_money_zeros (ss : List String) (h : ∀ s ∈ ss, parse_money s = some 0) :
    sum_money ss = some 0 := by
  induction ss with
  | nil => rfl
  | cons s t ih =>
    rw [sum_money, h s (by simp), ih (fun q hq => h q (by simp [hq]))]
    rfl

instance exceptDecEq {e a : Type} [DecidableEq e] [DecidableEq a] :
    DecidableEq (Except e a) :=
  fun x y =>
    match x, y with
    | Except.error u, Except.error v =>
      match decEq u v with
      | isTrue h => isTrue (by rw [h])
      | isFalse h => isFalse (fun hh => h (Except.error.inj hh))
    | Except.ok u, Except.ok v =>
      match decEq u v with
      | isTrue h => isTrue (by rw [h])
      | isFalse h => isFalse (fun hh => h (Except.ok.inj hh))
    | Except.error _, Except.ok _ => isFalse (fun hh => Except.noConfusion hh)
    | Except.ok _, Except.error _ => isFalse (fun hh => Except.noConfusion hh)

theorem formatCents_eq_zero_str (c : Int) (h : formatCents c = "0.00") : c = 0 := by
  have h1 := parse_money_formatCents c
  rw [h] at h1
  have h0 : parse_money "0.00" = some 0 := by decide
  rw [h0] at h1
  injection h1 with h2
  exact h2.symm

/-- A database and rows shared by the concrete report scenarios: the
local store knows vendor Anthropic (Claude) with remote id 42 and the
alias index has been rebuilt. -/
def test_db : VendorDb :=
  rebuild_alias_map ⟨[("Anthropic (Claude)", ⟨42, "Anthropic (Claude)"⟩)], []⟩

/-- Claim C1.  For every report whose rows all compile successfully, the
assembled transaction is balanced: the debit fields and the credit fields
of its line items sum to the same cents value, hence render to the same
two-decimal string, and the last line item is exactly the synthetic
credit line whose amount is the total of all debits. -/
theorem claim_C1 (db : VendorDb) (rows : List Row) (descr : String) (txn : Txn)
    (h : compileReport db rows descr = Except.ok ([], txn)) :
    ∃ total : Int,
      sum_debit_cents txn.lineItems = some total ∧
      sum_credit_cents txn.lineItems = some total ∧
      (sum_debit_cents txn.lineItems).map formatCents =
        (sum_credit_cents txn.lineItems).map formatCents ∧
      txn.lineItems.getLast? = some (reimb_credit_line total) := by
  unfold compileReport at h
  cases hpr : processRows db rows with
  | error a => rw [hpr] at h; exact Except.noConfusion h
  | ok st =>
    rw [hpr] at h
    replace h : (match sum_debit_cents st.debit_lines with
      | none => (Except.error "float" : Except String (List RowError × Txn))
      | some total =>
        Except.ok (st.errors,
          { transactionType := "expense"
            date := st.latest_date
            description := descr
            reimbursementStatus := "pending"
            isPosted := true
            lineItems := st.debit_lines ++ [reimb_credit_line total] })) =
        Except.ok ([], txn) := h
    cases hs : sum_debit_cents st.debit_lines with
    | none => rw [hs] at h; exact Except.noConfusion h
    | some total =>
      rw [hs] at h
      injection h with h1
      rw [Prod.ext_iff] at h1
      obtain ⟨he, htxn⟩ := h1
      subst htxn
      have hcred : ∀ li ∈ st.debit_lines, li.credit = "0.00" := by
        intro li hli
        rcases runRows_lines_from db (rows.enumFrom 1) ⟨[], [], ""⟩ st hpr li hli with
          hin | ⟨p, hp, hpe⟩
        · exact absurd hin (by simp)
        · exact (rowLineOf_props db p li hpe).1
      have hd : sum_money ((st.debit_lines ++ [reimb_credit_line total]).map
          (fun li => li.debit)) = some total := by
        rw [List.map_append]
        rw [sum_money_append _ _ total 0 hs
          (by
            show sum_money ["0.00"] = some 0
            decide)]
        simp
      have hc : sum_money ((st.debit_lines ++ [reimb_credit_line total]).map
          (fun li => li.credit)) = some total := by
        rw [List.map_append]
        rw [sum_money_append _ _ 0 total
          (sum_money_zeros _ (by
            intro s hsm
            rcases List.mem_map.mp hsm with ⟨li, hli, hcc⟩
            rw [← hcc, hcred li hli]
            decide))
          (by
            show sum_money [formatCents total] = some total
            rw [sum_money, parse_money_formatCents total]
            show some (total + 0) = some total
            simp)]
        simp
      refine ⟨total, hd, hc, ?_, ?_⟩
      · show (sum_money ((st.debit_lines ++ [reimb_credit_line total]).map
            (fun li => li.debit))).map formatCents =
          (sum_money ((st.debit_lines ++ [reimb_credit_line total]).map
            (fun li => li.credit))).map formatCents
        rw [hd, hc]
      · show (st.debit_lines ++ [reimb_credit_line total]).getLast? =
          some (reimb_credit_line total)
        exact List.getLast?_concat _

/-- The transaction compiled from the single 30-dollar Claude row. -/
def txn30 : Txn :=
  { transactionType := "expense"
    date := "2026-01-05"
    description := "Expenses"
    reimbursementStatus := "pending"
    isPosted := true
    lineItems :=
      [{ accountId := 48
         debit := "30.00"
         credit := "0.00"
         description := "Anthropic (Claude) — LLM coding"
         functionalClass := "program"
         vendorId := some 42
         expenseSubcategoryId := some 11 },
       { accountId := 13
         debit := "0.00"
         credit := "30.00"
         description := "Reimbursement payable"
         functionalClass := "none"
         vendorId := none
         expenseSubcategoryId := none }] }

/-- Witness for claim C1 on the concrete one-row 30-dollar report. -/
theorem claim_C1_witness :
    ∃ total : Int,
      sum_debit_cents txn30.lineItems = some total ∧
      sum_credit_cents txn30.lineItems = some total ∧
      (sum_debit_cents txn30.lineItems).map formatCents =
        (sum_credit_cents txn30.lineItems).map formatCents ∧
      txn30.lineItems.getLast? = some (reimb_credit_line total) :=
  claim_C1 test_db [⟨"1/5/26", "Claude", "LLM coding", "$30.00"⟩] "Expenses" txn30 (by decide)

/-- Claim C2, amended.  When no row aborts the loop on its amount, the
compiler processes every row, accumulating exactly the per-row errors of
all failing rows in row order (dates, classification, vendor resolution),
and every accumulated error is tagged with its own 1-based row number. -/
theorem claim_C2 (db : VendorDb) (rows : List Row)
    (h : ∀ p ∈ rows.enumFrom 1, rowCrashes db p = false) :
    (∃ latest, processRows db rows =
      Except.ok ⟨(rows.enumFrom 1).filterMap (rowLineOf db),
                 (rows.enumFrom 1).filterMap (rowErrOf db), latest⟩) ∧
    (∀ p : Nat × Row, ∀ e, rowErrOf db p = some e → e.rowNum = p.1) := by
  constructor
  · obtain ⟨latest, hl⟩ := runRows_ok_of_no_crash db (rows.enumFrom 1) ⟨[], [], ""⟩ h
    exact ⟨latest, by simpa [processRows] using hl⟩
  · exact fun p e => rowErrOf_rowNum db p e

/-- Counterexample to claim C2 as stated: a report whose first row has an
unparseable amount makes the whole compilation abort with an uncaught
error carrying no row tag, so the second row's vendor error is never
accumulated; the result is not a row-error list at all. -/
theorem claim_C2_counterexample :
    compileReport test_db
      [⟨"1/5/26", "Claude", "llm coding", "abc"⟩,
       ⟨"1/6/26", "nobody", "llm", "$5"⟩] "Report" = Except.error "abc" := by
  decide

/-- Witness for claim C2: two rows, the second failing vendor resolution,
compile to one line plus one row-2-tagged error. -/
theorem claim_C2_witness :
    (∃ latest, processRows test_db
        [⟨"1/5/26", "Claude", "llm coding", "$30.00"⟩,
         ⟨"1/6/26", "nobody", "llm", "$5"⟩] =
      Except.ok ⟨([(1, (⟨"1/5/26", "Claude", "llm coding", "$30.00"⟩ : Row)),
                   (2, (⟨"1/6/26", "nobody", "llm", "$5"⟩ : Row))].filterMap
                    (rowLineOf test_db)),
                 ([(1, (⟨"1/5/26", "Claude", "llm coding", "$30.00"⟩ : Row)),
                   (2, (⟨"1/6/26", "nobody", "llm", "$5"⟩ : Row))].filterMap
                    (rowErrOf test_db)), latest⟩) ∧
    (∀ p : Nat × Row, ∀ e, rowErrOf test_db p = some e → e.rowNum = p.1) :=
  claim_C2 test_db
    [⟨"1/5/26", "Claude", "llm coding", "$30.00"⟩, ⟨"1/6/26", "nobody", "llm", "$5"⟩]
    (by decide)

/-- Deconstruction of a successful compile into its loop state and total. -/
theorem compileReport_ok_shape (db : VendorDb) (rows : List Row) (descr : String)
    (errs : List RowError) (txn : Txn)
    (h : compileReport db rows descr = Except.ok (errs, txn)) :
    ∃ st total, processRows db rows = Except.ok st ∧
      sum_debit_cents st.debit_lines = some total ∧
      errs = st.errors ∧
      txn = { transactionType := "expense"
              date := st.latest_date
              description := descr
              reimbursementStatus := "pending"
              isPosted := true
              lineItems := st.debit_lines ++ [reimb_credit_line total] } := by
  unfold compileReport at h
  cases hpr : processRows db rows with
  | error a => rw [hpr] at h; exact Except.noConfusion h
  | ok st =>
    rw [hpr] at h
    replace h : (match sum_debit_cents st.debit_lines with
      | none => (Except.error "float" : Except String (List RowError × Txn))
      | some total =>
        Except.ok (st.errors,
          { transactionType := "expense"
            date := st.latest_date
            description := descr
            reimbursementStatus := "pending"
            isPosted := true
            lineItems := st.debit_lines ++ [reimb_credit_line total] })) =
        Except.ok (errs, txn) := h
    cases hs : sum_debit_cents st.debit_lines with
    | none => rw [hs] at h; exact Except.noConfusion h
    | some total =>
      rw [hs] at h
      injection h with h1
      rw [Prod.ext_iff] at h1
      exact ⟨st, total, rfl, hs, h1.1.symm, h1.2.symm⟩

/-- Claim C8, amended.  If every row amount is nonzero and the report
total is nonzero, then every line of the compiled transaction has exactly
one of debit and credit equal to "0.00": row lines carry the debit, the
synthetic line carries the credit. -/
theorem claim_C8 (db : VendorDb) (rows : List Row) (descr : String) (txn : Txn)
    (h : compileReport db rows descr = Except.ok ([], txn))
    (hz : ∀ r ∈ rows, parse_money (trimStr r.amount) ≠ some 0)
    (ht : sum_debit_cents txn.lineItems ≠ some 0) :
    ∀ li ∈ txn.lineItems,
      (li.debit = "0.00" ∧ li.credit ≠ "0.00") ∨
      (li.debit ≠ "0.00" ∧ li.credit = "0.00") := by
  obtain ⟨st, total, hpr, hs, herrs, htxn⟩ := compileReport_ok_shape db rows descr [] txn h
  have hall : sum_debit_cents (st.debit_lines ++ [reimb_credit_line total]) = some total := by
    show sum_money ((st.debit_lines ++ [reimb_credit_line total]).map
      (fun li => li.debit)) = some total
    rw [List.map_append]
    rw [sum_money_append _ _ total 0 hs
      (by
        show sum_money ["0.00"] = some 0
        decide)]
    simp
  have htot : total ≠ 0 := by
    intro h0
    apply ht
    rw [htxn]
    show sum_debit_cents (st.debit_lines ++ [reimb_credit_line total]) = some 0
    rw [hall, h0]
  intro li hli
  rw [htxn] at hli
  replace hli : li ∈ st.debit_lines ++ [reimb_credit_line total] := hli
  rcases List.mem_append.mp hli with hin | hin
  · rcases runRows_lines_from db (rows.enumFrom 1) ⟨[], [], ""⟩ st hpr li hin with
      habs | ⟨p, hp, hpe⟩
    · exact absurd habs (by simp)
    · obtain ⟨hcredit, c, hc, hdeb⟩ := rowLineOf_props db p li hpe
      have hcz : c ≠ 0 := by
        intro h0
        exact hz p.2 (List.snd_mem_of_mem_enumFrom hp) (h0 ▸ hc)
      refine Or.inr ⟨?_, hcredit⟩
      intro hdz
      exact hcz (formatCents_eq_zero_str c (hdeb ▸ hdz))
  · rw [List.mem_singleton] at hin
    subst hin
    refine Or.inl ⟨rfl, ?_⟩
    intro hcz
    exact htot (formatCents_eq_zero_str total hcz)

/-- Counterexample to claim C8 as stated: a row whose amount parses to
zero produces a line item whose debit and credit are both "0.00" (and the
synthetic credit line is then also doubly zero). -/
theorem claim_C8_counterexample :
    compileReport test_db [⟨"1/5/26", "Claude", "llm coding", "$0"⟩] "Report" =
      Except.ok ([],
        { transactionType := "expense"
          date := "2026-01-05"
          description := "Report"
          reimbursementStatus := "pending"
          isPosted := true
          lineItems :=
            [{ accountId := 48
               debit := "0.00"
               credit := "0.00"
               description := "Anthropic (Claude) — llm coding"
               functionalClass := "program"
               vendorId := some 42
               expenseSubcategoryId := some 11 },
             { accountId := 13
               debit := "0.00"
               credit := "0.00"
               description := "Reimbursement payable"
               functionalClass := "none"
               vendorId := none
               expenseSubcategoryId := none }] }) ∧
    ∃ li ∈ ([{ accountId := 48
               debit := "0.00"
               credit := "0.00"
               description := "Anthropic (Claude) — llm coding"
               functionalClass := "program"
               vendorId := some 42
               expenseSubcategoryId := some 11 }] : List LineItem),
      li.debit = "0.00" ∧ li.credit = "0.00" := by
  constructor
  · decide
  · decide

/-- Witness for claim C8 on the concrete 30-dollar report, instantiated
at the first line item of the compiled transaction. -/
theorem claim_C8_witness :
    ∃ li, txn30.lineItems.head? = some li ∧
      ((li.debit = "0.00" ∧ li.credit ≠ "0.00") ∨
       (li.debit ≠ "0.00" ∧ li.credit = "0.00")) :=
  ⟨_, rfl,
    claim_C8 test_db [⟨"1/5/26", "Claude", "LLM coding", "$30.00"⟩] "Expenses" txn30
      (by decide) (by decide) (by decide) _ (by decide)⟩

/-! ## Pay-bill compound workflow (cmd_pay_bill in fish.py)

Remote API calls are modelled by an oracle mapping the call index (0 the
bill POST, 1 the payment POST, 2 the payment-application POST) to the
created remote id or a transport/status error.  api_request failure calls
sys.exit, so a failing call ends the workflow immediately; the printed
step results are modelled as an event list. -/

/-- Printed milestones of the pay-bill workflow. -/
inductive PayEvent where
  | billCreated (id : Int)
  | paymentCreated (id : Int)
  | applicationCreated (id : Int)
  | apiError (msg : String)
  | dryRunShown
  | crashed
deriving DecidableEq

/-- Model of cmd_pay_bill: total the expense lines (an unparseable debit
is an uncaught ValueError), short-circuit on dry run before any remote
call, then three dependent POSTs, each aborting the process on failure.
Returns the event list and the number of remote calls attempted. -/
def cmd_pay_bill (dryRun : Bool) (expense_lines : List LineItem)
    (remote : Nat → Except String Int) : List PayEvent × Nat :=
  match sum_money (expense_lines.map (fun li => li.debit)) with
  | none => ([PayEvent.crashed], 0)
  | some _total =>
    if dryRun then ([PayEvent.dryRunShown], 0)
    else
      match remote 0 with
      | Except.error e => ([PayEvent.apiError e], 1)
      | Except.ok billId =>
        match remote 1 with
        | Except.error e => ([PayEvent.billCreated billId, PayEvent.apiError e], 2)
        | Except.ok pmtId =>
          match remote 2 with
          | Except.error e =>
            ([PayEvent.billCreated billId, PayEvent.paymentCreated pmtId,
              PayEvent.apiError e], 3)
          | Except.ok appId =>
            ([PayEvent.billCreated billId, PayEvent.paymentCreated pmtId,
              PayEvent.applicationCreated appId], 3)

/-- Claim C3.  If bill creation succeeds with id 100 and payment creation
fails, the workflow output reports the created bill id followed by the
payment-step failure, only two remote calls are attempted (step 3 never
runs), and no payment-application event appears. -/
theorem claim_C3 (lines : List LineItem) (remote : Nat → Except String Int)
    (e : String) (total : Int)
    (hl : sum_money (lines.map (fun li => li.debit)) = some total)
    (h0 : remote 0 = Except.ok 100)
    (h1 : remote 1 = Except.error e) :
    cmd_pay_bill false lines remote =
      ([PayEvent.billCreated 100, PayEvent.apiError e], 2) ∧
    (∀ ev ∈ (cmd_pay_bill false lines remote).1, ∀ id, ev ≠ PayEvent.applicationCreated id) := by
  have hmain : cmd_pay_bill false lines remote =
      ([PayEvent.billCreated 100, PayEvent.apiError e], 2) := by
    unfold cmd_pay_bill
    rw [hl]
    show (match remote 0 with
      | Except.error e => ([PayEvent.apiError e], 1)
      | Except.ok billId =>
        match remote 1 with
        | Except.error e => ([PayEvent.billCreated billId, PayEvent.apiError e], 2)
        | Except.ok pmtId =>
          match remote 2 with
          | Except.error e =>
            ([PayEvent.billCreated billId, PayEvent.paymentCreated pmtId,
              PayEvent.apiError e], 3)
          | Except.ok appId =>
            ([PayEvent.billCreated billId, PayEvent.paymentCreated pmtId,
              PayEvent.applicationCreated appId], 3)) =
      ([PayEvent.billCreated 100, PayEvent.apiError e], 2)
    rw [h0, h1]
  refine ⟨hmain, ?_⟩
  rw [hmain]
  intro ev hev id
  rcases List.mem_cons.mp hev with h | h
  · subst h; exact fun hh => PayEvent.noConfusion hh
  · rw [List.mem_singleton] at h
    subst h
    exact fun hh => PayEvent.noConfusion hh

/-- Witness for claim C3: an oracle whose first call returns id 100 and
whose second call fails with a transport error. -/
theorem claim_C3_witness :
    cmd_pay_bill false []
      (fun n => if n = 0 then Except.ok 100 else Except.error "transport") =
      ([PayEvent.billCreated 100, PayEvent.apiError "transport"], 2) ∧
    (∀ ev ∈ (cmd_pay_bill false []
      (fun n => if n = 0 then Except.ok 100 else Except.error "transport")).1,
      ∀ id, ev ≠ PayEvent.applicationCreated id) :=
  claim_C3 [] (fun n => if n = 0 then Except.ok 100 else Except.error "transport")
    "transport" 0 (by decide) (by decide) (by decide)

/-! ## Bulk vendor import (cmd_import_vendors in fish.py)

The command first fetches the remote vendor list (a GET that happens
before any dry-run check), then walks the sorted canonical names:
adopt a remote id when the name exists remotely, skip when it is already
in the local store, otherwise create remotely (or merely report in dry
run).  The local store file is written at the end of the walk; an API
failure exits the process before that write. -/

/-- A vendor as returned by the remote API. -/
structure RemoteVendor where
  id : Int
  name : String
deriving DecidableEq

/-- Stable ascending insertion into a sorted list, Python-style order. -/
def insertSorted (x : String) : List String → List String
  | [] => [x]
  | y :: t => if pyStrLt x y then x :: y :: t else y :: insertSorted x t

/-- Model of Python sorted() on strings. -/
def sortStrings : List String → List String
  | [] => []
  | x :: t => insertSorted x (sortStrings t)

/-- sorted(VENDOR_ALIASES.keys()) in fish.py. -/
def canonical_names : List String :=
  sortStrings (VENDOR_ALIASES.map (fun kv => kv.1))

/-- The dict of existing remote vendors keyed by lowercased name. -/
def existing_map (vs : List RemoteVendor) : List (String × RemoteVendor) :=
  vs.foldl (fun m v => alist_insert (lowerStr v.name) v m) []

/-- Loop state of the vendor import walk. -/
structure IVState where
  db : VendorDb
  created : Nat
  skipped : Nat
  posts : Nat
  would_create : List String
deriving DecidableEq

/-- The vendor import walk over canonical names.  An error carries the
state at the failing POST (the process exits there, before any save). -/
def ivLoop (dryRun : Bool) (existing : List (String × RemoteVendor))
    (createResp : Nat → Except String RemoteVendor) :
    List String → IVState → Except (String × IVState) IVState
  | [], st => Except.ok st
  | name :: rest, st =>
    match alist_lookup existing (lowerStr name) with
    | some v =>
      ivLoop dryRun existing createResp rest
        { st with
          db := { st.db with vendors := alist_insert name ⟨v.id, name⟩ st.db.vendors },
          skipped := st.skipped + 1 }
    | none =>
      if alist_contains st.db.vendors name then
        ivLoop dryRun existing createResp rest { st with skipped := st.skipped + 1 }
      else if dryRun then
        ivLoop dryRun existing createResp rest
          { st with would_create := st.would_create ++ [name] }
      else
        match createResp st.posts with
        | Except.error e => Except.error (e, { st with posts := st.posts + 1 })
        | Except.ok v =>
          ivLoop dryRun existing createResp rest
            { st with
              db := { st.db with vendors := alist_insert name ⟨v.id, v.name⟩ st.db.vendors },
              created := st.created + 1, posts := st.posts + 1 }

/-- Observable result of cmd_import_vendors: the saved store (none if the
process exited before the save), counters, remote call counts, and the
dry-run report. -/
structure IVResult where
  saved_db : Option VendorDb
  created : Nat
  skipped : Nat
  get_calls : Nat
  post_calls : Nat
  abort_msg : Option String
  would_create : List String
deriving DecidableEq

/-- Packaging of the walk result: a failing POST exits before the save
(no store written), a completed walk saves the final store. -/
def ivResultOf (r : Except (String × IVState) IVState) : IVResult :=
  match r with
  | Except.error (e, st) =>
    { saved_db := none, created := st.created, skipped := st.skipped, get_calls := 1,
      post_calls := st.posts, abort_msg := some e, would_create := st.would_create }
  | Except.ok st =>
    { saved_db := some st.db, created := st.created, skipped := st.skipped, get_calls := 1,
      post_calls := st.posts, abort_msg := none, would_create := st.would_create }

/-- Model of cmd_import_vendors.  The GET of the remote vendor list is
the first remote call and happens unconditionally, dry run included. -/
def cmd_import_vendors (dryRun : Bool) (remote : Except String (List RemoteVendor))
    (createResp : Nat → Except String RemoteVendor) (db0 : VendorDb) : IVResult :=
  match remote with
  | Except.error e =>
    { saved_db := none, created := 0, skipped := 0, get_calls := 1, post_calls := 0,
      abort_msg := some e, would_create := [] }
  | Except.ok vs =>
    ivResultOf (ivLoop dryRun (existing_map vs) createResp canonical_names
      ⟨rebuild_alias_map db0, 0, 0, 0, []⟩)

/-! ## Structural lemmas about the vendor import walk -/

/-- A dry-run walk always completes and never POSTs. -/
theorem ivLoop_dry_ok (ex : List (String × RemoteVendor))
    (cr : Nat → Except String RemoteVendor) :
    ∀ (names : List String) (st : IVState), ∃ st',
      ivLoop true ex cr names st = Except.ok st' ∧ st'.posts = st.posts := by
  intro names
  induction names with
  | nil => intro st; exact ⟨st, rfl, rfl⟩
  | cons name rest ih =>
    intro st
    cases hl : alist_lookup ex (lowerStr name) with
    | some v =>
      obtain ⟨st', h1, h2⟩ := ih
        { st with
          db := { st.db with vendors := alist_insert name ⟨v.id, name⟩ st.db.vendors },
          skipped := st.skipped + 1 }
      exact ⟨st', by simp only [ivLoop, hl]; exact h1, h2⟩
    | none =>
      by_cases hc : alist_contains st.db.vendors name = true
      · obtain ⟨st', h1, h2⟩ := ih { st with skipped := st.skipped + 1 }
        exact ⟨st', by simp only [ivLoop, hl]; rw [if_pos hc]; exact h1, h2⟩
      · obtain ⟨st', h1, h2⟩ := ih { st with would_create := st.would_create ++ [name] }
        refine ⟨st', ?_, h2⟩
        simp only [ivLoop, hl]
        rw [if_neg hc, if_pos trivial]
        exact h1

/-- The walk never removes a name from the local store. -/
theorem ivLoop_contains_mono (dr : Bool) (ex : List (String × RemoteVendor))
    (cr : Nat → Except String RemoteVendor) :
    ∀ (names : List String) (st st' : IVState),
      ivLoop dr ex cr names st = Except.ok st' →
      ∀ n, alist_contains st.db.vendors n = true →
        alist_contains st'.db.vendors n = true := by
  intro names
  induction names with
  | nil =>
    intro st st' h n hn
    injection h with h1
    subst h1
    exact hn
  | cons name rest ih =>
    intro st st' h n hn
    rw [ivLoop] at h
    cases hl : alist_lookup ex (lowerStr name) with
    | some v =>
      rw [hl] at h
      exact ih _ _ h n (alist_contains_insert name n _ _ hn)
    | none =>
      rw [hl] at h
      by_cases hc : alist_contains st.db.vendors name = true
      · rw [if_pos hc] at h
        exact ih _ _ h n hn
      · rw [if_neg hc] at h
        by_cases hd : dr = true
        · rw [if_pos hd] at h
          exact ih _ _ h n hn
        · rw [if_neg hd] at h
          cases hcr : cr st.posts with
          | error e => rw [hcr] at h; exact Except.noConfusion h
          | ok v =>
            rw [hcr] at h
            exact ih _ _ h n (alist_contains_insert name n _ _ hn)

/-- After a completed non-dry walk, every walked name is in the store. -/
theorem ivLoop_covers (ex : List (String × RemoteVendor))
    (cr : Nat → Except String RemoteVendor) :
    ∀ (names : List String) (st st' : IVState),
      ivLoop false ex cr names st = Except.ok st' →
      ∀ n ∈ names, alist_contains st'.db.vendors n = true := by
  intro names
  induction names with
  | nil => intro st st' h n hn; exact absurd hn (by simp)
  | cons name rest ih =>
    intro st st' h n hn
    rw [ivLoop] at h
    rcases List.mem_cons.mp hn with hn | hn
    · subst hn
      cases hl : alist_lookup ex (lowerStr n) with
      | some v =>
        rw [hl] at h
        exact ivLoop_contains_mono false ex cr rest _ _ h n (alist_contains_insert_self n _ _)
      | none =>
        rw [hl] at h
        by_cases hc : alist_contains st.db.vendors n = true
        · rw [if_pos hc] at h
          exact ivLoop_contains_mono false ex cr rest _ _ h n hc
        · rw [if_neg hc, if_neg (by simp)] at h
          cases hcr : cr st.posts with
          | error e => rw [hcr] at h; exact Except.noConfusion h
          | ok v =>
            rw [hcr] at h
            exact ivLoop_contains_mono false ex cr rest _ _ h n
              (alist_contains_insert_self n _ _)
    · cases hl : alist_lookup ex (lowerStr name) with
      | some v =>
        rw [hl] at h
        exact ih _ _ h n hn
      | none =>
        rw [hl] at h
        by_cases hc : alist_contains st.db.vendors name = true
        · rw [if_pos hc] at h
          exact ih _ _ h n hn
        · rw [if_neg hc, if_neg (by simp)] at h
          cases hcr : cr st.posts with
          | error e => rw [hcr] at h; exact Except.noConfusion h
          | ok v =>
            rw [hcr] at h
            exact ih _ _ h n hn

/-- If every walked name is already in the store, the walk completes with
no creations and no POSTs. -/
theorem ivLoop_no_creates (dr : Bool) (ex : List (String × RemoteVendor))
    (cr : Nat → Except String RemoteVendor) :
    ∀ (names : List String) (st : IVState),
      (∀ n ∈ names, alist_contains st.db.vendors n = true) →
      ∃ st', ivLoop dr ex cr names st = Except.ok st' ∧
        st'.created = st.created ∧ st'.posts = st.posts := by
  intro names
  induction names with
  | nil => intro st h; exact ⟨st, rfl, rfl, rfl⟩
  | cons name rest ih =>
    intro st h
    have hrest : ∀ st2 : IVState,
        (∀ n, alist_contains st.db.vendors n = true →
          alist_contains st2.db.vendors n = true) →
        ∀ n ∈ rest, alist_contains st2.db.vendors n = true :=
      fun st2 hmono n hn => hmono n (h n (by simp [hn]))
    cases hl : alist_lookup ex (lowerStr name) with
    | some v =>
      obtain ⟨st', h1, h2, h3⟩ := ih
        { st with
          db := { st.db with vendors := alist_insert name ⟨v.id, name⟩ st.db.vendors },
          skipped := st.skipped + 1 }
        (hrest _ (fun n hn => alist_contains_insert name n _ _ hn))
      exact ⟨st', by rw [ivLoop, hl]; exact h1, h2, h3⟩
    | none =>
      have hc : alist_contains st.db.vendors name = true := h name (by simp)
      obtain ⟨st', h1, h2, h3⟩ := ih { st with skipped := st.skipped + 1 }
        (hrest _ (fun n hn => hn))
      exact ⟨st', by rw [ivLoop, hl, if_pos hc]; exact h1, h2, h3⟩

/-- A completed dry-run walk has adopted, for every walked name found in
the remote list, that remote id into the local store (keyed by canonical
name, stored with the canonical name). -/
theorem ivLoop_dry_adopt (ex : List (String × RemoteVendor))
    (cr : Nat → Except String RemoteVendor) :
    ∀ (names : List String) (st st' : IVState),
      ivLoop true ex cr names st = Except.ok st' →
      ∀ n v, alist_lookup ex (lowerStr n) = some v →
        (n ∈ names ∨ alist_lookup st.db.vendors n = some ⟨v.id, n⟩) →
        alist_lookup st'.db.vendors n = some ⟨v.id, n⟩ := by
  intro names
  induction names with
  | nil =>
    intro st st' h n v hv hOr
    injection h with h1
    subst h1
    rcases hOr with hmem | hlook
    · exact absurd hmem (by simp)
    · exact hlook
  | cons name rest ih =>
    intro st st' h n v hv hOr
    rw [ivLoop] at h
    cases hl : alist_lookup ex (lowerStr name) with
    | some w =>
      rw [hl] at h
      apply ih _ _ h n v hv
      by_cases hnm : name = n
      · subst hnm
        rw [hl] at hv
        injection hv with hv1
        subst hv1
        right
        show alist_lookup (alist_insert name ⟨w.id, name⟩ st.db.vendors) name =
          some ⟨w.id, name⟩
        exact alist_lookup_insert_self name _ _
      · rcases hOr with hmem | hlook
        · rcases List.mem_cons.mp hmem with hmem | hmem
          · exact absurd hmem.symm hnm
          · exact Or.inl hmem
        · right
          show alist_lookup (alist_insert name ⟨w.id, name⟩ st.db.vendors) n =
            some ⟨v.id, n⟩
          rw [alist_lookup_insert_other name n _ _ hnm]
          exact hlook
    | none =>
      rw [hl] at h
      have hnm : name ≠ n := by
        intro he
        subst he
        rw [hl] at hv
        exact Option.noConfusion hv
      have hOr' : n ∈ rest ∨ alist_lookup st.db.vendors n = some ⟨v.id, n⟩ := by
        rcases hOr with hmem | hlook
        · rcases List.mem_cons.mp hmem with hmem | hmem
          · exact absurd hmem.symm hnm
          · exact Or.inl hmem
        · exact Or.inr hlook
      by_cases hc : alist_contains st.db.vendors name = true
      · rw [if_pos hc] at h
        exact ih _ _ h n v hv hOr'
      · rw [if_neg hc, if_pos rfl] at h
        exact ih _ _ h n v hv hOr'

/-- Claim C4, amended.  In dry-run mode import-report and pay-bill make
no remote calls at all, and import-vendors makes no create POSTs; but
import-vendors still performs its initial vendor-list GET (see the
counterexample), so only the mutating calls are absent in general. -/
theorem claim_C4 :
    (∀ (db0 : VendorDb) (rows : List Row) (descr : String),
      (cmd_import_report true db0 rows descr).2 = 0) ∧
    (∀ (expense_lines : List LineItem) (remote : Nat → Except String Int),
      (cmd_pay_bill true expense_lines remote).2 = 0) ∧
    (∀ (remote : Except String (List RemoteVendor))
       (cr : Nat → Except String RemoteVendor) (db0 : VendorDb),
      (cmd_import_vendors true remote cr db0).post_calls = 0) := by
  refine ⟨?_, ?_, ?_⟩
  · intro db0 rows descr
    unfold cmd_import_report
    cases hc : compileReport (rebuild_alias_map db0) rows descr with
    | error a => rfl
    | ok pr =>
      obtain ⟨errors, txn⟩ := pr
      show ((if errors ≠ [] ∧ true = false then (ReportOutcome.abortedWithErrors errors, 0)
        else if true = true then (ReportOutcome.previewed errors txn, 0)
        else (ReportOutcome.posted txn, 1)) : ReportOutcome × Nat).2 = 0
      rw [if_neg (by simp), if_pos rfl]
  · intro expense_lines remote
    unfold cmd_pay_bill
    cases hs : sum_money (expense_lines.map (fun li => li.debit)) with
    | none => rfl
    | some total => rfl
  · intro remote cr db0
    cases remote with
    | error e => rfl
    | ok vs =>
      obtain ⟨st', h1, h2⟩ := ivLoop_dry_ok (existing_map vs) cr canonical_names
        ⟨rebuild_alias_map db0, 0, 0, 0, []⟩
      unfold cmd_import_vendors
      show (ivResultOf (ivLoop true (existing_map vs) cr canonical_names
        ⟨rebuild_alias_map db0, 0, 0, 0, []⟩)).post_calls = 0
      rw [h1]
      exact h2

/-- Witness for claim C4 at concrete inputs for each command. -/
theorem claim_C4_witness :
    (cmd_import_report true ⟨[], []⟩ [] "report").2 = 0 ∧
    (cmd_pay_bill true [] (fun _ => Except.error "down")).2 = 0 ∧
    (cmd_import_vendors true (Except.ok ([] : List RemoteVendor))
      (fun _ => Except.error "down") ⟨[], []⟩).post_calls = 0 :=
  ⟨claim_C4.1 ⟨[], []⟩ [] "report",
   claim_C4.2.1 [] (fun _ => Except.error "down"),
   claim_C4.2.2 (Except.ok []) (fun _ => Except.error "down") ⟨[], []⟩⟩

/-- Counterexample to claim C4 as stated: a dry run of import-vendors
still makes the remote vendor-list GET as its first action, and when that
call fails the dry run aborts with a RemoteError. -/
theorem claim_C4_counterexample :
    (cmd_import_vendors true (Except.error "connection refused")
      (fun _ => Except.error "unused") ⟨[], []⟩).get_calls = 1 ∧
    (cmd_import_vendors true (Except.error "connection refused")
      (fun _ => Except.error "unused") ⟨[], []⟩).abort_msg =
      some "connection refused" := by
  exact ⟨rfl, rfl⟩

/-- Claim C7.  The bulk vendor import is idempotent: a second non-dry run
against the same remote vendor list, starting from the store saved by a
completed first run, creates zero vendors and issues zero create POSTs. -/
theorem claim_C7 (vs : List RemoteVendor) (db0 db1 : VendorDb)
    (cr cr2 : Nat → Except String RemoteVendor)
    (h : (cmd_import_vendors false (Except.ok vs) cr db0).saved_db = some db1) :
    (cmd_import_vendors false (Except.ok vs) cr2 db1).created = 0 ∧
    (cmd_import_vendors false (Except.ok vs) cr2 db1).post_calls = 0 := by
  unfold cmd_import_vendors at h
  replace h : (ivResultOf (ivLoop false (existing_map vs) cr canonical_names
    ⟨rebuild_alias_map db0, 0, 0, 0, []⟩)).saved_db = some db1 := h
  cases hrun : ivLoop false (existing_map vs) cr canonical_names
      ⟨rebuild_alias_map db0, 0, 0, 0, []⟩ with
  | error pr =>
    obtain ⟨e, stf⟩ := pr
    rw [hrun] at h
    exact Option.noConfusion h
  | ok st =>
    rw [hrun] at h
    replace h : some st.db = some db1 := h
    injection h with h1
    have hcov : ∀ n ∈ canonical_names, alist_contains st.db.vendors n = true :=
      ivLoop_covers (existing_map vs) cr canonical_names _ _ hrun
    have hpre : ∀ n ∈ canonical_names,
        alist_contains (rebuild_alias_map db1).vendors n = true := by
      intro n hn
      rw [rebuild_alias_map_vendors, ← h1]
      exact hcov n hn
    obtain ⟨st2, h2, h3, h4⟩ := ivLoop_no_creates false (existing_map vs) cr2
      canonical_names ⟨rebuild_alias_map db1, 0, 0, 0, []⟩ hpre
    unfold cmd_import_vendors
    constructor
    · show (ivResultOf (ivLoop false (existing_map vs) cr2 canonical_names
        ⟨rebuild_alias_map db1, 0, 0, 0, []⟩)).created = 0
      rw [h2]
      exact h3
    · show (ivResultOf (ivLoop false (existing_map vs) cr2 canonical_names
        ⟨rebuild_alias_map db1, 0, 0, 0, []⟩)).post_calls = 0
      rw [h2]
      exact h4

/-- Witness for claim C7: an empty remote list and an empty local store;
the first run creates every canonical vendor, and a second run against
the stored result creates nothing. -/
theorem claim_C7_witness :
    (cmd_import_vendors false (Except.ok ([] : List RemoteVendor))
      (fun _ => Except.ok ⟨7, "created"⟩)
      ((cmd_import_vendors false (Except.ok ([] : List RemoteVendor))
        (fun _ => Except.ok ⟨7, "created"⟩) ⟨[], []⟩).saved_db.getD ⟨[], []⟩)).created = 0 ∧
    (cmd_import_vendors false (Except.ok ([] : List RemoteVendor))
      (fun _ => Except.ok ⟨7, "created"⟩)
      ((cmd_import_vendors false (Except.ok ([] : List RemoteVendor))
        (fun _ => Except.ok ⟨7, "created"⟩) ⟨[], []⟩).saved_db.getD ⟨[], []⟩)).post_calls = 0 :=
  claim_C7 [] ⟨[], []⟩
    ((cmd_import_vendors false (Except.ok ([] : List RemoteVendor))
      (fun _ => Except.ok ⟨7, "created"⟩) ⟨[], []⟩).saved_db.getD ⟨[], []⟩)
    (fun _ => Except.ok ⟨7, "created"⟩) (fun _ => Except.ok ⟨7, "created"⟩)
    (by decide)

/-- Claim C10.  A dry run of the bulk vendor import still mutates durable
local state: it always executes the final store write, and the written
store has adopted, for every canonical name present in the remote vendor
list, that vendor's remote id under the canonical name. -/
theorem claim_C10 (vs : List RemoteVendor) (db0 : VendorDb)
    (cr : Nat → Except String RemoteVendor) :
    ∃ dbf, (cmd_import_vendors true (Except.ok vs) cr db0).saved_db = some dbf ∧
      ∀ n ∈ canonical_names, ∀ v,
        alist_lookup (existing_map vs) (lowerStr n) = some v →
        alist_lookup dbf.vendors n = some ⟨v.id, n⟩ := by
  obtain ⟨st', h1, h2⟩ := ivLoop_dry_ok (existing_map vs) cr canonical_names
    ⟨rebuild_alias_map db0, 0, 0, 0, []⟩
  refine ⟨st'.db, ?_, ?_⟩
  · unfold cmd_import_vendors
    show (ivResultOf (ivLoop true (existing_map vs) cr canonical_names
      ⟨rebuild_alias_map db0, 0, 0, 0, []⟩)).saved_db = some st'.db
    rw [h1]
    rfl
  · intro n hn v hv
    exact ivLoop_dry_adopt (existing_map vs) cr canonical_names _ _ h1 n v hv (Or.inl hn)

/-- Witness for claim C10: one remote vendor matching the canonical name
Amazon, an empty local store, a failing create oracle. -/
theorem claim_C10_witness :
    ∃ dbf, (cmd_import_vendors true (Except.ok [⟨5, "Amazon"⟩])
        (fun _ => Except.error "down") ⟨[], []⟩).saved_db = some dbf ∧
      ∀ n ∈ canonical_names, ∀ v,
        alist_lookup (existing_map [⟨5, "Amazon"⟩]) (lowerStr n) = some v →
        alist_lookup dbf.vendors n = some ⟨v.id, n⟩ :=
  claim_C10 [⟨5, "Amazon"⟩] ⟨[], []⟩ (fun _ => Except.error "down")

end Fish
